import Mathlib

/-!
# Locale resolution of `locale_setup` (src/core/locale-setup.c)

A shallow embedding of `locale_setup`: the three configuration reads, the
precedence between them, the SysV fallback derivation, the construction of the
`NAME=VALUE` additions and their merge onto the environment block.

Strings are Lean `String`s; the `variables[_VARIABLE_MAX]` array of nullable
`char *` is a function `Variable → Option String` (`none` is `NULL`).
The helpers the function calls but that live in other files (`parse_env_file`,
`detect_container`, `strcaseeq`, `strjoin`, `strv_push`, `strv_env_merge`) are
either inputs of the model or modelled from the specification, as stated at
each definition. `log_warning` only writes a diagnostic and changes no state,
so it has no counterpart here.
-/

namespace LocaleSetup

/-! ## Data model -/

/-- Index enum of locale-setup.c, lines 34-53 (`_VARIABLE_MAX` excluded). -/
inductive Variable where
  | LANG
  | LANGUAGE
  | LC_CTYPE
  | LC_NUMERIC
  | LC_TIME
  | LC_COLLATE
  | LC_MONETARY
  | LC_MESSAGES
  | LC_PAPER
  | LC_NAME
  | LC_ADDRESS
  | LC_TELEPHONE
  | LC_MEASUREMENT
  | LC_IDENTIFICATION
  deriving DecidableEq

/-- Table `variable_names[_VARIABLE_MAX]`, lines 55-70. -/
def variable_names : Variable → String
  | .LANG => "LANG"
  | .LANGUAGE => "LANGUAGE"
  | .LC_CTYPE => "LC_CTYPE"
  | .LC_NUMERIC => "LC_NUMERIC"
  | .LC_TIME => "LC_TIME"
  | .LC_COLLATE => "LC_COLLATE"
  | .LC_MONETARY => "LC_MONETARY"
  | .LC_MESSAGES => "LC_MESSAGES"
  | .LC_PAPER => "LC_PAPER"
  | .LC_NAME => "LC_NAME"
  | .LC_ADDRESS => "LC_ADDRESS"
  | .LC_TELEPHONE => "LC_TELEPHONE"
  | .LC_MEASUREMENT => "LC_MEASUREMENT"
  | .LC_IDENTIFICATION => "LC_IDENTIFICATION"

/-- The indices `0 .. _VARIABLE_MAX - 1` in enum order: the range of the loop
`for (i = 0; i < _VARIABLE_MAX; i++)`. -/
def variable_indices : List Variable :=
  [.LANG, .LANGUAGE, .LC_CTYPE, .LC_NUMERIC, .LC_TIME, .LC_COLLATE, .LC_MONETARY,
   .LC_MESSAGES, .LC_PAPER, .LC_NAME, .LC_ADDRESS, .LC_TELEPHONE, .LC_MEASUREMENT,
   .LC_IDENTIFICATION]

/-- The local array `char *variables[_VARIABLE_MAX]`; `none` is `NULL`. -/
abbrev Variables := Variable → Option String

/-- The initialiser `variables[_VARIABLE_MAX] = {}`: every slot `NULL`. -/
def variables_init : Variables := fun _ => none

/-- `ENOMEM` of errno.h. -/
def ENOMEM : Int := 12

/-- `ENOENT` of errno.h. -/
def ENOENT : Int := 2

/-- What one call of `parse_env_file` on the 14 locale keys did: its return
value (negative errno on failure, otherwise the number of keys it matched) and,
for each key it matched, the value it stored in that key's output slot. The
function itself is in fileio.c, so its outcome is an input of the model; no
relation between `ret` and `values` is assumed. -/
structure EnvFile where
  ret : Int
  values : Variable → Option String

/-- Outcome of the `parse_env_file` call on `/etc/sysconfig/language`: return
value and the three output slots `rc_lang`, `rc_lc_ctype`, `root_uses_lang`
(all `NULL` before the call). -/
structure Sysconfig where
  ret : Int
  rc_lang : Option String
  rc_lc_ctype : Option String
  root_uses_lang : Option String

/-- Everything `locale_setup` reads from its surroundings. -/
structure Input where
  /-- Whether `HAVE_SYSV_COMPAT` is defined. -/
  have_sysv_compat : Bool
  /-- Return value of `detect_container(NULL)`. -/
  detect_container : Int
  /-- Outcome of reading `/proc/cmdline` (keys `locale.LANG`, ...). -/
  proc_cmdline : EnvFile
  /-- Outcome of reading `/etc/locale.conf` (keys `LANG`, ...). -/
  etc_locale_conf : EnvFile
  /-- Outcome of reading `/etc/sysconfig/language`. -/
  etc_sysconfig_language : Sysconfig

/-- Which allocations succeed (`true`) during one run: the `strdup` of line 150,
and for loop index `i` the `strjoin` of line 169 and the `strv_push` of line
175, and the `strv_env_merge` of line 185. -/
structure Alloc where
  strdup : Bool
  strjoin : Variable → Bool
  strv_push : Variable → Bool
  strv_env_merge : Bool

/-- The run in which no allocation fails. -/
def Alloc.ok : Alloc :=
  { strdup := true, strjoin := fun _ => true, strv_push := fun _ => true, strv_env_merge := true }

/-- Return value of `locale_setup` and the table `*environment` afterwards. -/
structure Result where
  status : Int
  environment : List String

/-! ## Helpers from other files -/

/-- Modelled from the spec: `parse_env_file` (of fileio.c, whose source is
missing) "populates matching slots" and returns a status. A matched key
overwrites its slot, an unmatched key leaves its slot as it was. -/
def parse_env_file (f : EnvFile) (slots : Variables) : Int × Variables :=
  (f.ret, fun i => match f.values i with
                   | some v => some v
                   | none => slots i)

/-- Modelled from the spec: `strcaseeq` (a macro of util.h over `strcasecmp`,
whose source is missing): the "case-insensitive" comparison, equality of two
strings ignoring the case of ASCII letters. -/
def strcaseeq (a b : String) : Bool :=
  decide (a.data.map Char.toLower = b.data.map Char.toLower)

/-- Modelled from the spec: `strjoin(name, "=", value, NULL)` (of util.c, whose
source is missing), when it succeeds, is the string `NAME=VALUE`. -/
def strjoin (name sep value : String) : String :=
  name ++ sep ++ value

/-- Name of an environment entry: the characters before its first `=` (the
whole entry when it has none). -/
def env_name (s : String) : List Char :=
  s.data.takeWhile (fun c => c != '=')

/-- Modelled from the spec: one addition of the merge of env-util.c (whose
source is missing): "if an entry with the same name already exists, its value
is replaced in place (position preserved); if not, the entry is appended at the
end". Of several entries of that name the first one is replaced. -/
def env_append : String → List String → List String
  | a, [] => [a]
  | a, x :: xs => if env_name x = env_name a then a :: xs else x :: env_append a xs

/-- Modelled from the spec: `strv_env_merge(2, environment, add)` (of
env-util.c, whose source is missing), when it succeeds: the additions are
merged onto the existing table one after the other, in their order. -/
def strv_env_merge (environment add : List String) : List String :=
  add.foldl (fun e a => env_append a e) environment

/-! ## `locale_setup`, lines 72-204 -/

/-- Lines 81-101: `r` and `variables` after the `/proc/cmdline` block. -/
def read_proc_cmdline (inp : Input) : Int × Variables :=
  if inp.detect_container ≤ 0 then
    parse_env_file inp.proc_cmdline variables_init
  else
    (0, variables_init)

/-- Lines 103-125: `r` and `variables` after the `/etc/locale.conf` block. -/
def read_etc_locale_conf (inp : Input) (st : Int × Variables) : Int × Variables :=
  if st.1 ≤ 0 then
    parse_env_file inp.etc_locale_conf st.2
  else
    st

/-- The array `variables` at line 125, after the boot-parameter and the primary
configuration source have been consulted (steps 1-2 of the resolver). -/
def steps12 (inp : Input) : Variables :=
  (read_etc_locale_conf inp (read_proc_cmdline inp)).2

/-- The test `s && *s` of lines 151 and 154: set and non-empty. -/
def set_nonempty : Option String → Bool
  | some s => s != ""
  | none => false

/-- Lines 143-159: the SysV derivation from `/etc/sysconfig/language`.
The pair `st` is `(variables, rc_lang)` after the first `if`. -/
def sysv_compat (strdup_ok : Bool) (s : Sysconfig) (vars : Variables) : Variables :=
  match s.root_uses_lang with
  | none => vars
  | some root_uses_lang =>
    let st : Variables × Option String :=
      if strcaseeq root_uses_lang "yes" && (vars .LANG).isNone then
        (Function.update vars .LANG s.rc_lang, none)
      else
        (vars, s.rc_lang)
    if strcaseeq root_uses_lang "ctype" && (st.1 .LC_CTYPE).isNone then
      if (st.1 .LANG).isSome then
        Function.update st.1 .LC_CTYPE (if strdup_ok then st.1 .LANG else none)
      else if set_nonempty s.rc_lc_ctype then
        Function.update st.1 .LC_CTYPE s.rc_lc_ctype
      else if set_nonempty st.2 then
        Function.update st.1 .LC_CTYPE st.2
      else
        st.1
    else
      st.1

/-- The array `variables` at line 160: the resolved locale set. -/
def resolve (strdup_ok : Bool) (inp : Input) : Variables :=
  if inp.have_sysv_compat then
    sysv_compat strdup_ok inp.etc_sysconfig_language (steps12 inp)
  else
    steps12 inp

/-- Lines 162-180: the loop building `add`, started at the indices `is` with
the additions `add` collected so far. `none` is the jump to `finish` with
`r = -ENOMEM`. -/
def build_add (a : Alloc) (vars : Variables) : List Variable → List String → Option (List String)
  | [], add => some add
  | i :: is, add =>
    match vars i with
    | none => build_add a vars is add
    | some v =>
      if a.strjoin i = false then none
      else if a.strv_push i = false then none
      else build_add a vars is (add ++ [strjoin (variable_names i) "=" v])

/-- Lines 162-203: from the resolved `variables` to the return value and the
caller's table. -/
def apply_variables (a : Alloc) (vars : Variables) (environment : List String) : Result :=
  match build_add a vars variable_indices [] with
  | none => { status := -ENOMEM, environment := environment }
  | some add =>
    if add.isEmpty = false then
      if a.strv_env_merge then
        { status := 0, environment := strv_env_merge environment add }
      else
        { status := -ENOMEM, environment := environment }
    else
      { status := 0, environment := environment }

/-- The function `locale_setup(char ***environment)`. -/
def locale_setup (a : Alloc) (inp : Input) (environment : List String) : Result :=
  apply_variables a (resolve a.strdup inp) environment

/-! ## Vocabulary of the statements -/

/-- The entry of a table for a name: the first entry whose name it is. -/
def env_get (e : List String) (name : List Char) : Option String :=
  e.find? (fun x => decide (env_name x = name))

/-- The `NAME=VALUE` strings of the set variables among the indices `is`, in
the order of `is`: what the loop of lines 163-180 collects when no allocation
fails. -/
def additions (vars : Variables) (is : List Variable) : List String :=
  is.filterMap (fun i => (vars i).map (fun v => strjoin (variable_names i) "=" v))

/-- A source whose file does not exist: `parse_env_file` returns `-ENOENT` and
stores nothing. -/
def absent_file : EnvFile :=
  { ret := -ENOENT, values := fun _ => none }

/-- The legacy file when it does not exist. -/
def absent_sysconfig : Sysconfig :=
  { ret := -ENOENT, rc_lang := none, rc_lc_ctype := none, root_uses_lang := none }

/-- A source file that sets exactly the variable `i`, to `v` (one key matched). -/
def single_file (i : Variable) (v : String) : EnvFile :=
  { ret := 1, values := fun j => if j = i then some v else none }

/-- Nothing on the kernel command line, the primary
configuration file sets only `LC_TIME`, and the legacy file holds
`ROOT_USES_LANG=yes`, `RC_LANG=en_US.UTF-8`. -/
def legacy_gate_input : Input :=
  { have_sysv_compat := true
    detect_container := 0
    proc_cmdline := absent_file
    etc_locale_conf := single_file .LC_TIME "de_DE.UTF-8"
    etc_sysconfig_language :=
      { ret := 2, rc_lang := some "en_US.UTF-8", rc_lc_ctype := none,
        root_uses_lang := some "yes" } }

/-- Not in a container, the kernel command line sets
only `LANG`, the primary configuration file sets `LC_TIME`. -/
def fallback_input : Input :=
  { have_sysv_compat := false
    detect_container := 0
    proc_cmdline := single_file .LANG "C"
    etc_locale_conf := single_file .LC_TIME "de_DE.UTF-8"
    etc_sysconfig_language := absent_sysconfig }

/-- As `legacy_gate_input`, but the primary configuration file sets `LANG`. -/
def legacy_gate_closed_input : Input :=
  { legacy_gate_input with etc_locale_conf := single_file .LANG "fr_FR.UTF-8" }

/-- As `fallback_input`, but the kernel command line matches no key. -/
def fallback_unmatched_input : Input :=
  { fallback_input with proc_cmdline := { ret := 0, values := fun _ => none } }

/-- Not in a container, the kernel command line holds `locale.LANG=C` and the
primary configuration file holds `LANG=fr_FR.UTF-8`. -/
def boot_wins_input : Input :=
  { have_sysv_compat := true
    detect_container := 0
    proc_cmdline := single_file .LANG "C"
    etc_locale_conf := single_file .LANG "fr_FR.UTF-8"
    etc_sysconfig_language := absent_sysconfig }

/-- In a container (`detect_container` returned 1); the primary configuration
file holds `LANG=fr_FR.UTF-8`. -/
def container_input : Input :=
  { boot_wins_input with detect_container := 1 }

/-- The primary configuration file holds `LANG=fr_FR.UTF-8`; the legacy file
holds `ROOT_USES_LANG=ctype`, `RC_LC_CTYPE=de_DE.UTF-8`, `RC_LANG=en_US.UTF-8`. -/
def ctype_copy_input : Input :=
  { have_sysv_compat := true
    detect_container := 0
    proc_cmdline := absent_file
    etc_locale_conf := single_file .LANG "fr_FR.UTF-8"
    etc_sysconfig_language :=
      { ret := 3, rc_lang := some "en_US.UTF-8", rc_lc_ctype := some "de_DE.UTF-8",
        root_uses_lang := some "ctype" } }

/-- Nothing on the kernel command line, no primary configuration file; the
legacy file holds `ROOT_USES_LANG=CTYPE`, `RC_LC_CTYPE=de_DE.UTF-8`. -/
def ctype_legacy_input : Input :=
  { have_sysv_compat := true
    detect_container := 0
    proc_cmdline := absent_file
    etc_locale_conf := absent_file
    etc_sysconfig_language :=
      { ret := 2, rc_lang := none, rc_lc_ctype := some "de_DE.UTF-8",
        root_uses_lang := some "CTYPE" } }

/-- Resolved set of the examples: only `LANG` is set, to `de_DE.UTF-8`. -/
def lang_only : Variables :=
  fun i => if i = .LANG then some "de_DE.UTF-8" else none

/-- Table of the examples. -/
def sample_environment : List String :=
  ["PATH=/bin", "LANG=C", "LANGUAGE=en"]

/-- Nothing on the kernel command line, no primary configuration file; the
legacy file holds `ROOT_USES_LANG` with the value "yes " (trailing blank) and
`RC_LANG=en_US.UTF-8`. -/
def trailing_blank_input : Input :=
  { have_sysv_compat := true
    detect_container := 0
    proc_cmdline := absent_file
    etc_locale_conf := absent_file
    etc_sysconfig_language :=
      { ret := 2, rc_lang := some "en_US.UTF-8", rc_lc_ctype := none,
        root_uses_lang := some "yes " } }

/-- A read of the 14 locale keys that fails with `-EACCES` (-13) and stores
nothing. -/
def failed_file : EnvFile :=
  { ret := -13, values := fun _ => none }

/-- A read of the legacy file that fails with `-EACCES` (-13) and stores
nothing. -/
def failed_sysconfig : Sysconfig :=
  { ret := -13, rc_lang := none, rc_lc_ctype := none, root_uses_lang := none }

/-- The run in which the `strjoin` for `LANG` fails and nothing else does. -/
def strjoin_fails : Alloc :=
  { Alloc.ok with strjoin := fun i => decide (i ≠ .LANG) }

/-- The primary configuration file holds `LANG=` (the empty string); the
legacy file holds `ROOT_USES_LANG=yes`, `RC_LANG=en_US.UTF-8`. -/
def empty_lang_input : Input :=
  { legacy_gate_input with etc_locale_conf := single_file .LANG "" }

/-! ## Steps 1-2 -/

theorem steps12_of_container (inp : Input) (h : 0 < inp.detect_container) (i : Variable) :
    steps12 inp i = inp.etc_locale_conf.values i := by
  have h1 : ¬ inp.detect_container ≤ 0 := not_le.mpr h
  simp only [steps12, read_proc_cmdline, h1, if_false, read_etc_locale_conf, le_refl, if_true,
    parse_env_file, variables_init]
  cases inp.etc_locale_conf.values i <;> rfl

theorem steps12_of_matched (inp : Input) (hc : inp.detect_container ≤ 0)
    (hr : 0 < inp.proc_cmdline.ret) (i : Variable) :
    steps12 inp i = inp.proc_cmdline.values i := by
  have h1 : ¬ inp.proc_cmdline.ret ≤ 0 := not_le.mpr hr
  simp only [steps12, read_proc_cmdline, hc, if_true, read_etc_locale_conf, parse_env_file, h1,
    if_false, variables_init]
  cases inp.proc_cmdline.values i <;> rfl

theorem steps12_of_unmatched (inp : Input) (hr : inp.proc_cmdline.ret ≤ 0) (i : Variable)
    (hi : inp.proc_cmdline.values i = none) :
    steps12 inp i = inp.etc_locale_conf.values i := by
  by_cases hc : inp.detect_container ≤ 0
  · simp only [steps12, read_proc_cmdline, hc, if_true, read_etc_locale_conf, parse_env_file, hr,
      variables_init, hi]
    cases inp.etc_locale_conf.values i <;> rfl
  · exact steps12_of_container inp (not_le.mp hc) i

theorem steps12_none (inp : Input) (i : Variable)
    (hb : inp.proc_cmdline.values i = none) (hp : inp.etc_locale_conf.values i = none) :
    steps12 inp i = none := by
  by_cases hr : inp.proc_cmdline.ret ≤ 0
  · rw [steps12_of_unmatched inp hr i hb, hp]
  · by_cases hc : inp.detect_container ≤ 0
    · rw [steps12_of_matched inp hc (not_le.mp hr) i, hb]
    · rw [steps12_of_container inp (not_le.mp hc) i, hp]

/-! ## The SysV derivation -/

theorem strcaseeq_yes_ctype (u : String) (h : strcaseeq u "yes" = true) :
    strcaseeq u "ctype" = false := by
  simp only [strcaseeq, decide_eq_true_eq, decide_eq_false_iff_not] at h ⊢
  rw [h]
  decide

theorem strcaseeq_ctype_yes (u : String) (h : strcaseeq u "ctype" = true) :
    strcaseeq u "yes" = false := by
  cases hy : strcaseeq u "yes" with
  | false => rfl
  | true => rw [strcaseeq_yes_ctype u hy] at h; cases h

theorem sysv_compat_absent (sd : Bool) (s : Sysconfig) (vars : Variables)
    (hu : s.root_uses_lang = none) : sysv_compat sd s vars = vars := by
  simp only [sysv_compat, hu]

theorem sysv_compat_yes (sd : Bool) (s : Sysconfig) (vars : Variables) (u : String)
    (hu : s.root_uses_lang = some u) (hy : strcaseeq u "yes" = true) :
    sysv_compat sd s vars =
      if (vars .LANG).isNone then Function.update vars .LANG s.rc_lang else vars := by
  have hc := strcaseeq_yes_ctype u hy
  simp only [sysv_compat, hu, hy, hc, Bool.true_and, Bool.false_and, Bool.false_eq_true, if_false]
  split_ifs <;> rfl

theorem sysv_compat_ctype (sd : Bool) (s : Sysconfig) (vars : Variables) (u : String)
    (hu : s.root_uses_lang = some u) (hc : strcaseeq u "ctype" = true) :
    sysv_compat sd s vars =
      if (vars .LC_CTYPE).isNone then
        if (vars .LANG).isSome then
          Function.update vars .LC_CTYPE (if sd then vars .LANG else none)
        else if set_nonempty s.rc_lc_ctype then
          Function.update vars .LC_CTYPE s.rc_lc_ctype
        else if set_nonempty s.rc_lang then
          Function.update vars .LC_CTYPE s.rc_lang
        else vars
      else vars := by
  have hy := strcaseeq_ctype_yes u hc
  simp only [sysv_compat, hu, hy, hc, Bool.true_and, Bool.false_and, Bool.false_eq_true, if_false]

theorem sysv_compat_other (sd : Bool) (s : Sysconfig) (vars : Variables) (u : String)
    (hu : s.root_uses_lang = some u) (hy : strcaseeq u "yes" = false)
    (hc : strcaseeq u "ctype" = false) : sysv_compat sd s vars = vars := by
  simp only [sysv_compat, hu, hy, hc, Bool.false_and, Bool.false_eq_true, if_false]

theorem sysv_compat_of_set (sd : Bool) (s : Sysconfig) (vars : Variables) (i : Variable)
    (v : String) (h : vars i = some v) : sysv_compat sd s vars i = some v := by
  cases hu : s.root_uses_lang with
  | none => rw [sysv_compat_absent sd s vars hu, h]
  | some u =>
    cases hy : strcaseeq u "yes" with
    | true =>
      rw [sysv_compat_yes sd s vars u hu hy]
      split_ifs with h1
      · by_cases hi : i = .LANG
        · subst hi; rw [h] at h1; cases h1
        · rw [Function.update_noteq hi, h]
      · exact h
    | false =>
      cases hc : strcaseeq u "ctype" with
      | true =>
        rw [sysv_compat_ctype sd s vars u hu hc]
        have key : ∀ w, vars .LC_CTYPE = none → Function.update vars .LC_CTYPE w i = some v := by
          intro w hn
          by_cases hi : i = .LC_CTYPE
          · subst hi; rw [h] at hn; cases hn
          · rw [Function.update_noteq hi, h]
        by_cases h1 : (vars .LC_CTYPE).isNone = true
        · have hn : vars .LC_CTYPE = none := Option.isNone_iff_eq_none.mp h1
          simp only [h1, if_true]
          split_ifs
          · exact key _ hn
          · exact key _ hn
          · exact key _ hn
          · exact key _ hn
          · exact h
        · simp only [h1, if_false]
          exact h
      | false => rw [sysv_compat_other sd s vars u hu hy hc, h]

/-! ## C1: the gate of the legacy derivation -/

/-- C1 (as stated, refuted): the primary source sets `LC_TIME` (so a
higher-precedence source set one of the 14 variables), `ROOT_USES_LANG=yes` and
`RC_LANG=en_US.UTF-8`; after steps 1-2 `LANG` is absent, yet the resolved `LANG`
is `en_US.UTF-8`: the legacy derivation fired and the resolved set differs from
the result of steps 1-2. -/
theorem C1_counterexample :
    legacy_gate_input.have_sysv_compat = true ∧
    legacy_gate_input.etc_locale_conf.values .LC_TIME = some "de_DE.UTF-8" ∧
    steps12 legacy_gate_input .LC_TIME = some "de_DE.UTF-8" ∧
    steps12 legacy_gate_input .LANG = none ∧
    resolve true legacy_gate_input .LANG = some "en_US.UTF-8" ∧
    resolve true legacy_gate_input ≠ steps12 legacy_gate_input := by
  refine ⟨rfl, by decide, by decide, by decide, by decide, ?_⟩
  intro h
  have h1 := congrFun h .LANG
  revert h1
  decide

/-- C1 (amended): with legacy support compiled in, the derivation is gated per
variable. If `LANG` is set after steps 1-2 whenever `ROOT_USES_LANG` equals
"yes" ignoring case, and `LC_CTYPE` is set after steps 1-2 whenever
`ROOT_USES_LANG` equals "ctype" ignoring case, then the resolved set equals the
result of steps 1-2, whatever `RC_LANG` and `RC_LC_CTYPE` hold and whether or
not the `strdup` would succeed. -/
theorem C1_legacy_gate_per_variable (sd : Bool) (inp : Input)
    (hsysv : inp.have_sysv_compat = true)
    (hyes : ∀ u, inp.etc_sysconfig_language.root_uses_lang = some u →
      strcaseeq u "yes" = true → steps12 inp .LANG ≠ none)
    (hctype : ∀ u, inp.etc_sysconfig_language.root_uses_lang = some u →
      strcaseeq u "ctype" = true → steps12 inp .LC_CTYPE ≠ none) :
    resolve sd inp = steps12 inp := by
  simp only [resolve, hsysv, if_true]
  cases hu : inp.etc_sysconfig_language.root_uses_lang with
  | none => exact sysv_compat_absent sd _ _ hu
  | some u =>
    cases hy : strcaseeq u "yes" with
    | true =>
      rw [sysv_compat_yes sd _ _ u hu hy]
      have h1 := hyes u hu hy
      cases hl : steps12 inp .LANG with
      | none => exact absurd hl h1
      | some l => simp
    | false =>
      cases hc : strcaseeq u "ctype" with
      | true =>
        rw [sysv_compat_ctype sd _ _ u hu hc]
        have h1 := hctype u hu hc
        cases hl : steps12 inp .LC_CTYPE with
        | none => exact absurd hl h1
        | some l => simp
      | false => exact sysv_compat_other sd _ _ u hu hy hc

/-- C1 (amended), at a concrete input: `ROOT_USES_LANG=yes` with `LANG` set by
the primary source. -/
theorem C1_legacy_gate_per_variable_witness :
    legacy_gate_closed_input.have_sysv_compat = true ∧
    steps12 legacy_gate_closed_input .LANG = some "fr_FR.UTF-8" ∧
    resolve true legacy_gate_closed_input = steps12 legacy_gate_closed_input :=
  ⟨rfl, by decide,
    C1_legacy_gate_per_variable true legacy_gate_closed_input rfl
      (fun u _ _ => by decide)
      (fun u hu hc => by
        have h1 : u = "yes" := by
          have h2 : some "yes" = some u := hu
          exact (Option.some.inj h2).symm
        subst h1
        revert hc
        decide)⟩

/-! ## C2: fallback to the primary configuration source -/

/-- C2 (as stated, refuted): not containerized, the boot-parameter source sets
only `LANG` and so leaves `LC_TIME` absent, the primary source holds
`LC_TIME=de_DE.UTF-8`; the value of `LC_TIME` after steps 1-2 is absent, not
the primary value. -/
theorem C2_counterexample :
    fallback_input.detect_container ≤ 0 ∧
    fallback_input.proc_cmdline.values .LC_TIME = none ∧
    fallback_input.etc_locale_conf.values .LC_TIME = some "de_DE.UTF-8" ∧
    steps12 fallback_input .LC_TIME = none ∧
    steps12 fallback_input .LC_TIME ≠ fallback_input.etc_locale_conf.values .LC_TIME := by
  decide

/-- C2 (amended): for each of the 14 variables `X`, when the boot-parameter read
matched no key (it returned a value `≤ 0`) and left `X` absent, the value of
`X` after steps 1-2 is the primary configuration source's value for `X`. -/
theorem C2_fallback_when_unmatched (inp : Input) (X : Variable)
    (hr : inp.proc_cmdline.ret ≤ 0) (hX : inp.proc_cmdline.values X = none) :
    steps12 inp X = inp.etc_locale_conf.values X :=
  steps12_of_unmatched inp hr X hX

/-- C2 (amended), at a concrete input. -/
theorem C2_fallback_when_unmatched_witness :
    fallback_unmatched_input.proc_cmdline.ret ≤ 0 ∧
    fallback_unmatched_input.proc_cmdline.values .LC_TIME = none ∧
    steps12 fallback_unmatched_input .LC_TIME =
      fallback_unmatched_input.etc_locale_conf.values .LC_TIME :=
  ⟨by decide, rfl,
    C2_fallback_when_unmatched fallback_unmatched_input .LC_TIME (by decide) rfl⟩


/-! ## The additions and the merge -/

theorem takeWhile_append_stop {α : Type} (p : α → Bool) (l r : List α) (x : α)
    (hl : ∀ c ∈ l, p c = true) (hx : p x = false) : (l ++ x :: r).takeWhile p = l := by
  induction l with
  | nil => simp [List.takeWhile, hx]
  | cons c l ih =>
    have hc : p c = true := hl c (List.mem_cons_self c l)
    have ih1 := ih (fun d hd => hl d (List.mem_cons_of_mem c hd))
    simp [List.takeWhile, hc, ih1]

theorem variable_names_no_eq (i : Variable) :
    ∀ c ∈ (variable_names i).data, (c != '=') = true := by
  cases i <;> decide

theorem variable_names_injective (i j : Variable)
    (h : (variable_names i).data = (variable_names j).data) : i = j := by
  cases i <;> cases j <;> first | rfl | (exfalso; revert h; decide)

theorem env_name_strjoin (i : Variable) (v : String) :
    env_name (strjoin (variable_names i) "=" v) = (variable_names i).data := by
  have h : (strjoin (variable_names i) "=" v).data = (variable_names i).data ++ '=' :: v.data := by
    simp [strjoin, String.data_append]
  rw [env_name, h]
  exact takeWhile_append_stop _ _ _ _ (variable_names_no_eq i) (by decide)

theorem build_add_ok (vars : Variables) (is : List Variable) (add : List String) :
    build_add Alloc.ok vars is add = some (add ++ additions vars is) := by
  induction is generalizing add with
  | nil => simp [build_add, additions]
  | cons i is ih =>
    cases hv : vars i with
    | none =>
      simp only [build_add, hv]
      rw [ih]
      simp [additions, hv]
    | some v =>
      simp only [build_add, hv, Alloc.ok]
      have := ih (add ++ [strjoin (variable_names i) "=" v])
      simp only [Alloc.ok] at this
      simp [this, additions, hv]

theorem strv_env_merge_nil (e : List String) : strv_env_merge e [] = e := rfl

theorem strv_env_merge_cons (e : List String) (a : String) (add : List String) :
    strv_env_merge e (a :: add) = strv_env_merge (env_append a e) add := rfl

theorem apply_variables_ok (vars : Variables) (e : List String) :
    apply_variables Alloc.ok vars e =
      { status := 0, environment := strv_env_merge e (additions vars variable_indices) } := by
  have h := build_add_ok vars variable_indices []
  simp only [List.nil_append] at h
  simp only [apply_variables, h]
  cases hadd : additions vars variable_indices with
  | nil => simp [strv_env_merge_nil]
  | cons a add => simp [Alloc.ok]

theorem mem_additions (vars : Variables) (is : List Variable) (a : String) :
    a ∈ additions vars is ↔
      ∃ i ∈ is, ∃ v, vars i = some v ∧ a = strjoin (variable_names i) "=" v := by
  simp only [additions, List.mem_filterMap, Option.map_eq_some']
  constructor
  · rintro ⟨i, hi, v, hv, rfl⟩
    exact ⟨i, hi, v, hv, rfl⟩
  · rintro ⟨i, hi, v, hv, rfl⟩
    exact ⟨i, hi, v, hv, rfl⟩

theorem variable_indices_nodup : variable_indices.Nodup := by decide

theorem mem_variable_indices (i : Variable) : i ∈ variable_indices := by
  cases i <;> decide

theorem additions_names_nodup (vars : Variables) (is : List Variable) (h : is.Nodup) :
    ((additions vars is).map env_name).Nodup := by
  induction is with
  | nil => simp [additions]
  | cons i is ih =>
    have hi : i ∉ is := (List.nodup_cons.mp h).1
    have ih1 := ih (List.nodup_cons.mp h).2
    cases hv : vars i with
    | none =>
      have : additions vars (i :: is) = additions vars is := by simp [additions, hv]
      rw [this]; exact ih1
    | some v =>
      have : additions vars (i :: is) =
          strjoin (variable_names i) "=" v :: additions vars is := by simp [additions, hv]
      rw [this, List.map_cons, List.nodup_cons]
      refine ⟨?_, ih1⟩
      intro hmem
      obtain ⟨b, hb, hbn⟩ := List.mem_map.mp hmem
      obtain ⟨j, hj, w, _, rfl⟩ := (mem_additions vars is b).mp hb
      rw [env_name_strjoin, env_name_strjoin] at hbn
      have := variable_names_injective j i hbn
      subst this
      exact hi hj

theorem env_get_env_append (a : String) (e : List String) (nm : List Char) :
    env_get (env_append a e) nm = if env_name a = nm then some a else env_get e nm := by
  induction e with
  | nil =>
    by_cases h : env_name a = nm <;> simp [env_append, env_get, h]
  | cons x xs ih =>
    simp only [env_get] at ih ⊢
    by_cases hx : env_name x = env_name a
    · by_cases h : env_name a = nm
      · simp [env_append, hx, h]
      · have hx2 : ¬ env_name x = nm := by rw [hx]; exact h
        simp [env_append, hx, h, hx2]
    · by_cases h : env_name a = nm
      · have hx2 : ¬ env_name x = nm := by rw [← h]; exact hx
        simp only [env_append, hx, if_false, List.find?_cons, hx2, decide_False, ih, h, if_true]
      · by_cases hx2 : env_name x = nm
        · rw [env_append, if_neg hx, if_neg h, List.find?_cons, List.find?_cons]
          simp only [hx2, decide_True]
        · simp only [env_append, hx, if_false, List.find?_cons, hx2, decide_False, ih, h]

theorem env_get_merge_of_not_mem (add e : List String) (nm : List Char)
    (h : ∀ a ∈ add, env_name a ≠ nm) : env_get (strv_env_merge e add) nm = env_get e nm := by
  induction add generalizing e with
  | nil => rfl
  | cons a add ih =>
    rw [strv_env_merge_cons, ih _ (fun b hb => h b (List.mem_cons_of_mem a hb)),
      env_get_env_append, if_neg (h a (List.mem_cons_self a add))]

theorem env_get_merge_of_mem (add e : List String) (a : String) (ha : a ∈ add)
    (hn : (add.map env_name).Nodup) : env_get (strv_env_merge e add) (env_name a) = some a := by
  induction add generalizing e with
  | nil => cases ha
  | cons b add ih =>
    rw [List.map_cons, List.nodup_cons] at hn
    rw [strv_env_merge_cons]
    rcases List.mem_cons.mp ha with rfl | hmem
    · rw [env_get_merge_of_not_mem add _ _ (fun c hc hcn => hn.1 (by rw [← hcn]; exact List.mem_map_of_mem env_name hc)),
        env_get_env_append, if_pos rfl]
    · exact ih _ hmem hn.2

theorem env_get_mem (e : List String) (nm : List Char) (x : String)
    (h : env_get e nm = some x) : x ∈ e ∧ env_name x = nm := by
  unfold env_get at h
  exact ⟨List.mem_of_find?_eq_some h, by simpa using List.find?_some h⟩

/-- Lookup in the table `locale_setup` leaves when no allocation fails: a set
variable is found with its resolved value. -/
theorem env_get_apply_of_set (vars : Variables) (e : List String) (i : Variable) (v : String)
    (h : vars i = some v) :
    env_get (apply_variables Alloc.ok vars e).environment (variable_names i).data =
      some (strjoin (variable_names i) "=" v) := by
  rw [apply_variables_ok]
  have hmem : strjoin (variable_names i) "=" v ∈ additions vars variable_indices :=
    (mem_additions _ _ _).mpr ⟨i, mem_variable_indices i, v, h, rfl⟩
  have := env_get_merge_of_mem _ e _ hmem (additions_names_nodup vars _ variable_indices_nodup)
  rwa [env_name_strjoin] at this

/-- Lookup in the table `locale_setup` leaves when no allocation fails: the
entry for a name that is not that of a set variable is the one of the input. -/
theorem env_get_apply_of_unset (vars : Variables) (e : List String) (nm : List Char)
    (h : ∀ i v, vars i = some v → (variable_names i).data ≠ nm) :
    env_get (apply_variables Alloc.ok vars e).environment nm = env_get e nm := by
  rw [apply_variables_ok]
  apply env_get_merge_of_not_mem
  intro a ha
  obtain ⟨i, _, v, hv, rfl⟩ := (mem_additions _ _ _).mp ha
  rw [env_name_strjoin]
  exact h i v hv


/-! ## Congruence of the resolver -/

theorem resolve_of_set (sd : Bool) (inp : Input) (i : Variable) (v : String)
    (h : steps12 inp i = some v) : resolve sd inp i = some v := by
  unfold resolve
  split_ifs
  · exact sysv_compat_of_set sd _ _ i v h
  · exact h

theorem resolve_congr (sd : Bool) (inp inp2 : Input)
    (h1 : inp.have_sysv_compat = inp2.have_sysv_compat)
    (h2 : inp.etc_sysconfig_language = inp2.etc_sysconfig_language)
    (h3 : steps12 inp = steps12 inp2) : resolve sd inp = resolve sd inp2 := by
  unfold resolve
  rw [h1, h2, h3]

theorem set_nonempty_some (c : String) : set_nonempty (some c) = true ↔ c ≠ "" := by
  simp [set_nonempty]

theorem set_nonempty_of_unset (o : Option String) (h : o = none ∨ o = some "") :
    set_nonempty o = false := by
  rcases h with rfl | rfl <;> simp [set_nonempty]

/-! ## C3: the boot-parameter value wins -/

/-- C3: for each of the 14 variables `X` and all values `b`, `p`: when the
process is not containerized (`detect_container` returned `≤ 0`), the
boot-parameter read matched (returned a positive count) and stored `b` for `X`,
and the primary configuration source holds `p` for `X`, then the resolved value
of `X` is `b` (after steps 1-2 and in the final set, with or without legacy
support), and in the run without allocation failure `locale_setup` returns 0
and the table holds the entry `X=b`, which is the entry found for the name `X`. -/
theorem C3_boot_value_wins (sd : Bool) (inp : Input) (E : List String) (X : Variable)
    (b p : String) (hc : inp.detect_container ≤ 0) (hr : 0 < inp.proc_cmdline.ret)
    (hb : inp.proc_cmdline.values X = some b) (_hp : inp.etc_locale_conf.values X = some p) :
    steps12 inp X = some b ∧ resolve sd inp X = some b ∧
    (locale_setup Alloc.ok inp E).status = 0 ∧
    strjoin (variable_names X) "=" b ∈ (locale_setup Alloc.ok inp E).environment ∧
    env_get (locale_setup Alloc.ok inp E).environment (variable_names X).data =
      some (strjoin (variable_names X) "=" b) := by
  have h12 : steps12 inp X = some b := by rw [steps12_of_matched inp hc hr X, hb]
  have hget := env_get_apply_of_set (resolve Alloc.ok.strdup inp) E X b
    (resolve_of_set _ inp X b h12)
  refine ⟨h12, resolve_of_set sd inp X b h12, ?_, ?_, hget⟩
  · simp only [locale_setup, apply_variables_ok]
  · exact (env_get_mem _ _ _ hget).1

/-- C3, at a concrete input: `locale.LANG=C` on the kernel command line against
`LANG=fr_FR.UTF-8` in the primary configuration file. -/
theorem C3_boot_value_wins_witness :
    boot_wins_input.detect_container ≤ 0 ∧ 0 < boot_wins_input.proc_cmdline.ret ∧
    boot_wins_input.proc_cmdline.values .LANG = some "C" ∧
    boot_wins_input.etc_locale_conf.values .LANG = some "fr_FR.UTF-8" ∧
    resolve true boot_wins_input .LANG = some "C" ∧
    env_get (locale_setup Alloc.ok boot_wins_input sample_environment).environment "LANG".data =
      some "LANG=C" :=
  ⟨by decide, by decide, rfl, rfl,
    (C3_boot_value_wins true boot_wins_input sample_environment .LANG "C" "fr_FR.UTF-8"
      (by decide) (by decide) rfl rfl).2.1,
    (C3_boot_value_wins true boot_wins_input sample_environment .LANG "C" "fr_FR.UTF-8"
      (by decide) (by decide) rfl rfl).2.2.2.2⟩

/-! ## C4: in a container the boot-parameter source is ignored -/

/-- C4: when `detect_container` reports a container (a value `> 0`), the result
of `locale_setup` (status and table) is the same for any two outcomes `c1`, `c2`
of the boot-parameter read, whichever allocations fail; and it is the result of
the run outside a container whose `/proc/cmdline` does not exist. -/
theorem C4_container_ignores_cmdline (a : Alloc) (inp : Input) (E : List String)
    (c1 c2 : EnvFile) (h : 0 < inp.detect_container) :
    locale_setup a { inp with proc_cmdline := c1 } E =
      locale_setup a { inp with proc_cmdline := c2 } E ∧
    locale_setup a { inp with proc_cmdline := c1 } E =
      locale_setup a { inp with proc_cmdline := absent_file, detect_container := 0 } E := by
  have e1 : steps12 { inp with proc_cmdline := c1 } = steps12 { inp with proc_cmdline := c2 } := by
    funext i
    rw [steps12_of_container { inp with proc_cmdline := c1 } h i,
      steps12_of_container { inp with proc_cmdline := c2 } h i]
  have e2 : steps12 { inp with proc_cmdline := c1 } =
      steps12 { inp with proc_cmdline := absent_file, detect_container := 0 } := by
    funext i
    rw [steps12_of_container { inp with proc_cmdline := c1 } h i,
      steps12_of_unmatched { inp with proc_cmdline := absent_file, detect_container := 0 }
        (show -ENOENT ≤ 0 by decide) i rfl]
  constructor
  · simp only [locale_setup]
    rw [resolve_congr a.strdup { inp with proc_cmdline := c1 } { inp with proc_cmdline := c2 }
      rfl rfl e1]
  · simp only [locale_setup]
    rw [resolve_congr a.strdup { inp with proc_cmdline := c1 }
      { inp with proc_cmdline := absent_file, detect_container := 0 } rfl rfl e2]

/-- C4, at a concrete input: in a container, a command line holding
`locale.LANG=C` gives the same result as a missing one. -/
theorem C4_container_ignores_cmdline_witness :
    0 < container_input.detect_container ∧
    locale_setup Alloc.ok { container_input with proc_cmdline := single_file .LANG "C" }
        sample_environment =
      locale_setup Alloc.ok { container_input with proc_cmdline := absent_file }
        sample_environment :=
  ⟨by decide,
    (C4_container_ignores_cmdline Alloc.ok container_input sample_environment
      (single_file .LANG "C") absent_file (by decide)).1⟩

/-! ## C5: nothing configured -/

theorem build_add_none (a : Alloc) (is : List Variable) (add : List String) :
    build_add a (fun _ => none) is add = some add := by
  induction is with
  | nil => rfl
  | cons i is ih => simpa [build_add] using ih

/-- C5: for every table `E`, if the boot-parameter and the primary source store
no value and the legacy source holds neither `RC_LANG` nor `RC_LC_CTYPE`
(whatever it holds for `ROOT_USES_LANG`, so in particular when all three
sources are absent), `locale_setup` returns 0 and leaves the table `E` itself,
whichever allocation would fail and with or without legacy support. -/
theorem C5_nothing_configured (a : Alloc) (inp : Input) (E : List String)
    (hb : ∀ i, inp.proc_cmdline.values i = none)
    (hp : ∀ i, inp.etc_locale_conf.values i = none)
    (hl : inp.etc_sysconfig_language.rc_lang = none)
    (hl2 : inp.etc_sysconfig_language.rc_lc_ctype = none) :
    locale_setup a inp E = { status := 0, environment := E } := by
  have h12 : steps12 inp = fun _ => none := by
    funext i
    exact steps12_none inp i (hb i) (hp i)
  have hres : resolve a.strdup inp = fun _ => none := by
    unfold resolve
    rw [h12]
    split_ifs
    · cases hu : inp.etc_sysconfig_language.root_uses_lang with
      | none => exact sysv_compat_absent _ _ _ hu
      | some u =>
        cases hy : strcaseeq u "yes" with
        | true =>
          rw [sysv_compat_yes _ _ _ u hu hy, hl]
          simp
        | false =>
          cases hc : strcaseeq u "ctype" with
          | true =>
            rw [sysv_compat_ctype _ _ _ u hu hc, hl, hl2]
            simp [set_nonempty]
          | false => exact sysv_compat_other _ _ _ u hu hy hc
    · rfl
  simp only [locale_setup, hres, apply_variables, build_add_none]
  rfl

/-- C5, at a concrete input: all three files absent, table `PATH=/bin`, `LANG=C`,
with the merge allocation set to fail. -/
theorem C5_nothing_configured_witness :
    locale_setup { Alloc.ok with strv_env_merge := false }
      { have_sysv_compat := true, detect_container := 0, proc_cmdline := absent_file,
        etc_locale_conf := absent_file, etc_sysconfig_language := absent_sysconfig }
      ["PATH=/bin", "LANG=C"] = { status := 0, environment := ["PATH=/bin", "LANG=C"] } :=
  C5_nothing_configured _ _ _ (fun _ => rfl) (fun _ => rfl) rfl rfl

/-! ## C6: `ROOT_USES_LANG=yes` -/

/-- C6: with legacy support compiled in, for every value `v` of `RC_LANG` and
every `ROOT_USES_LANG` equal to "yes" ignoring case, if neither the
boot-parameter nor the primary source stored a value for `LANG`, the resolved
`LANG` is `v`, and in the run without allocation failure `locale_setup` returns
0 and the table holds the entry `LANG=v`, which is the entry found for `LANG`. -/
theorem C6_root_uses_lang_yes (sd : Bool) (inp : Input) (E : List String) (u v : String)
    (hsysv : inp.have_sysv_compat = true)
    (hu : inp.etc_sysconfig_language.root_uses_lang = some u)
    (hy : strcaseeq u "yes" = true)
    (hv : inp.etc_sysconfig_language.rc_lang = some v)
    (hb : inp.proc_cmdline.values .LANG = none)
    (hp : inp.etc_locale_conf.values .LANG = none) :
    resolve sd inp .LANG = some v ∧
    (locale_setup Alloc.ok inp E).status = 0 ∧
    strjoin "LANG" "=" v ∈ (locale_setup Alloc.ok inp E).environment ∧
    env_get (locale_setup Alloc.ok inp E).environment "LANG".data = some (strjoin "LANG" "=" v) := by
  have h12 : steps12 inp .LANG = none := steps12_none inp .LANG hb hp
  have hres : ∀ sd, resolve sd inp .LANG = some v := by
    intro sd
    simp only [resolve, hsysv, if_true]
    rw [sysv_compat_yes sd _ _ u hu hy, h12, hv]
    simp
  have hget := env_get_apply_of_set (resolve Alloc.ok.strdup inp) E .LANG v (hres _)
  refine ⟨hres sd, ?_, ?_, hget⟩
  · simp only [locale_setup, apply_variables_ok]
  · exact (env_get_mem _ _ _ hget).1

/-- C6, at a concrete input: `ROOT_USES_LANG=yes`, `RC_LANG=en_US.UTF-8`, and
only `LC_TIME` set by the primary configuration file. -/
theorem C6_root_uses_lang_yes_witness :
    legacy_gate_input.have_sysv_compat = true ∧
    strcaseeq "yes" "yes" = true ∧
    resolve true legacy_gate_input .LANG = some "en_US.UTF-8" ∧
    env_get (locale_setup Alloc.ok legacy_gate_input sample_environment).environment
      "LANG".data = some "LANG=en_US.UTF-8" :=
  ⟨rfl, by decide,
    (C6_root_uses_lang_yes true legacy_gate_input sample_environment "yes" "en_US.UTF-8"
      rfl rfl (by decide) rfl rfl rfl).1,
    (C6_root_uses_lang_yes true legacy_gate_input sample_environment "yes" "en_US.UTF-8"
      rfl rfl (by decide) rfl rfl rfl).2.2.2⟩

/-! ## C7, C8: `ROOT_USES_LANG=ctype` -/

/-- C7: with legacy support compiled in, for every `ROOT_USES_LANG` equal to
"ctype" ignoring case, if `LANG` holds `l` after the boot-parameter and primary
sources were consulted and neither of them stored a value for `LC_CTYPE`, then
(the `strdup` of `LANG` succeeding) the resolved `LC_CTYPE` is `l` and the
resolved `LANG` is still `l`, whatever `RC_LC_CTYPE` and `RC_LANG` hold. -/
theorem C7_ctype_copies_lang (inp : Input) (u l : String)
    (hsysv : inp.have_sysv_compat = true)
    (hu : inp.etc_sysconfig_language.root_uses_lang = some u)
    (hc : strcaseeq u "ctype" = true)
    (hl : steps12 inp .LANG = some l)
    (hb : inp.proc_cmdline.values .LC_CTYPE = none)
    (hp : inp.etc_locale_conf.values .LC_CTYPE = none) :
    resolve true inp .LC_CTYPE = some l ∧ resolve true inp .LANG = some l := by
  have h12 : steps12 inp .LC_CTYPE = none := steps12_none inp .LC_CTYPE hb hp
  refine ⟨?_, resolve_of_set true inp .LANG l hl⟩
  simp only [resolve, hsysv, if_true]
  rw [sysv_compat_ctype true _ _ u hu hc, h12, hl]
  simp

/-- C7, at a concrete input: `LANG=fr_FR.UTF-8` from the primary configuration
file is copied although `RC_LC_CTYPE` and `RC_LANG` are set. -/
theorem C7_ctype_copies_lang_witness :
    strcaseeq "ctype" "ctype" = true ∧
    steps12 ctype_copy_input .LANG = some "fr_FR.UTF-8" ∧
    resolve true ctype_copy_input .LC_CTYPE = some "fr_FR.UTF-8" ∧
    resolve true ctype_copy_input .LANG = some "fr_FR.UTF-8" :=
  ⟨by decide, by decide,
    C7_ctype_copies_lang ctype_copy_input "ctype" "fr_FR.UTF-8" rfl rfl (by decide)
      (by decide) rfl rfl⟩

/-- C8: with legacy support compiled in, for every `ROOT_USES_LANG` equal to
"ctype" ignoring case, if neither the boot-parameter nor the primary source
stored a value for `LANG` or for `LC_CTYPE`, then the resolved `LC_CTYPE` is
`RC_LC_CTYPE` when that is set and non-empty, otherwise `RC_LANG` when that is
set and non-empty, otherwise absent; and the resolved `LANG` is absent. -/
theorem C8_ctype_from_legacy (sd : Bool) (inp : Input) (u : String)
    (hsysv : inp.have_sysv_compat = true)
    (hu : inp.etc_sysconfig_language.root_uses_lang = some u)
    (hc : strcaseeq u "ctype" = true)
    (hb1 : inp.proc_cmdline.values .LANG = none)
    (hp1 : inp.etc_locale_conf.values .LANG = none)
    (hb2 : inp.proc_cmdline.values .LC_CTYPE = none)
    (hp2 : inp.etc_locale_conf.values .LC_CTYPE = none) :
    (∀ c, inp.etc_sysconfig_language.rc_lc_ctype = some c → c ≠ "" →
      resolve sd inp .LC_CTYPE = some c) ∧
    ((inp.etc_sysconfig_language.rc_lc_ctype = none ∨
        inp.etc_sysconfig_language.rc_lc_ctype = some "") →
      ∀ g, inp.etc_sysconfig_language.rc_lang = some g → g ≠ "" →
        resolve sd inp .LC_CTYPE = some g) ∧
    ((inp.etc_sysconfig_language.rc_lc_ctype = none ∨
        inp.etc_sysconfig_language.rc_lc_ctype = some "") →
      (inp.etc_sysconfig_language.rc_lang = none ∨
        inp.etc_sysconfig_language.rc_lang = some "") →
        resolve sd inp .LC_CTYPE = none) ∧
    resolve sd inp .LANG = none := by
  have h1 : steps12 inp .LANG = none := steps12_none inp .LANG hb1 hp1
  have h2 : steps12 inp .LC_CTYPE = none := steps12_none inp .LC_CTYPE hb2 hp2
  have hne : Variable.LANG ≠ Variable.LC_CTYPE := by decide
  have hres : resolve sd inp =
      if set_nonempty inp.etc_sysconfig_language.rc_lc_ctype then
        Function.update (steps12 inp) .LC_CTYPE inp.etc_sysconfig_language.rc_lc_ctype
      else if set_nonempty inp.etc_sysconfig_language.rc_lang then
        Function.update (steps12 inp) .LC_CTYPE inp.etc_sysconfig_language.rc_lang
      else steps12 inp := by
    simp only [resolve, hsysv, if_true]
    rw [sysv_compat_ctype sd _ _ u hu hc, h1, h2]
    simp
  refine ⟨?_, ?_, ?_, ?_⟩
  · intro c hcs hcne
    rw [hres, hcs, if_pos ((set_nonempty_some c).mpr hcne), Function.update_same]
  · intro hcs g hg hgne
    rw [hres, if_neg (by rw [set_nonempty_of_unset _ hcs]; decide), hg,
      if_pos ((set_nonempty_some g).mpr hgne), Function.update_same]
  · intro hcs hgs
    rw [hres, if_neg (by rw [set_nonempty_of_unset _ hcs]; decide),
      if_neg (by rw [set_nonempty_of_unset _ hgs]; decide), h2]
  · rw [hres]
    split_ifs
    · rw [Function.update_noteq hne, h1]
    · rw [Function.update_noteq hne, h1]
    · exact h1


/-- C8, at a concrete input: `ROOT_USES_LANG=CTYPE`, `RC_LC_CTYPE=de_DE.UTF-8`
and nothing else configured. -/
theorem C8_ctype_from_legacy_witness :
    strcaseeq "CTYPE" "ctype" = true ∧
    resolve true ctype_legacy_input .LC_CTYPE = some "de_DE.UTF-8" ∧
    resolve true ctype_legacy_input .LANG = none :=
  ⟨by decide,
    (C8_ctype_from_legacy true ctype_legacy_input "CTYPE" rfl rfl (by decide)
      rfl rfl rfl rfl).1 "de_DE.UTF-8" rfl (by decide),
    (C8_ctype_from_legacy true ctype_legacy_input "CTYPE" rfl rfl (by decide)
      rfl rfl rfl rfl).2.2.2⟩

/-! ## Names of the merged table -/

theorem env_append_names (a : String) (e : List String) :
    (env_append a e).map env_name =
      if env_name a ∈ e.map env_name then e.map env_name else e.map env_name ++ [env_name a] := by
  induction e with
  | nil => simp [env_append]
  | cons x xs ih =>
    by_cases hx : env_name x = env_name a
    · simp [env_append, hx]
    · have hx2 : ¬ env_name a = env_name x := fun h => hx h.symm
      rw [env_append, if_neg hx, List.map_cons, ih]
      by_cases hm : env_name a ∈ xs.map env_name
      · rw [if_pos hm, if_pos (by rw [List.map_cons]; exact List.mem_cons_of_mem _ hm)]
        rfl
      · rw [if_neg hm, if_neg (by
          rw [List.map_cons, List.mem_cons]
          rintro (h | h)
          · exact hx2 h
          · exact hm h)]
        rfl

theorem env_append_nodup (a : String) (e : List String) (h : (e.map env_name).Nodup) :
    ((env_append a e).map env_name).Nodup := by
  rw [env_append_names]
  split_ifs with hm
  · exact h
  · exact List.Nodup.append h (List.nodup_singleton _) (by
      intro n hn hn2
      rw [List.mem_singleton] at hn2
      exact hm (hn2 ▸ hn))

theorem strv_env_merge_nodup (add e : List String) (h : (e.map env_name).Nodup) :
    ((strv_env_merge e add).map env_name).Nodup := by
  induction add generalizing e with
  | nil => exact h
  | cons a add ih => exact ih _ (env_append_nodup a e h)

theorem env_get_of_mem (e : List String) (x : String) (h : (e.map env_name).Nodup)
    (hx : x ∈ e) : env_get e (env_name x) = some x := by
  induction e with
  | nil => cases hx
  | cons y ys ih =>
    rw [List.map_cons, List.nodup_cons] at h
    rcases List.mem_cons.mp hx with rfl | hmem
    · simp [env_get]
    · have hne : ¬ env_name y = env_name x := by
        intro hy
        exact h.1 (by rw [hy]; exact List.mem_map_of_mem env_name hmem)
      have := ih h.2 hmem
      simp only [env_get] at this ⊢
      rw [List.find?_cons]
      simp only [hne, decide_False]
      exact this

/-! ## Positions of the merged table -/

theorem env_append_at (a : String) (pre : List String) (x : String) (post : List String) :
    ∃ pre2 y post2, env_append a (pre ++ x :: post) = pre2 ++ y :: post2 ∧
      pre2.map env_name = pre.map env_name ∧ env_name y = env_name x ∧
      (env_name x ≠ env_name a → y = x) ∧
      (env_name x = env_name a → env_name x ∉ pre.map env_name → y = a) := by
  induction pre with
  | nil =>
    by_cases hx : env_name x = env_name a
    · refine ⟨[], a, post, ?_, rfl, hx.symm, fun h => absurd hx h, fun _ _ => rfl⟩
      simp [env_append, hx]
    · refine ⟨[], x, env_append a post, ?_, rfl, rfl, fun _ => rfl, fun h => absurd h hx⟩
      simp [env_append, hx]
  | cons p pre ih =>
    by_cases hp : env_name p = env_name a
    · refine ⟨a :: pre, x, post, ?_, ?_, rfl, fun _ => rfl, ?_⟩
      · simp [env_append, hp]
      · simp [hp]
      · intro h1 h2
        exfalso
        apply h2
        rw [List.map_cons, h1, hp]
        exact List.mem_cons_self _ _
    · obtain ⟨pre2, y, post2, h1, h2, h3, h4, h5⟩ := ih
      refine ⟨p :: pre2, y, post2, ?_, ?_, h3, h4, ?_⟩
      · rw [List.cons_append, env_append, if_neg hp, h1]
        rfl
      · simp [h2]
      · intro e1 e2
        apply h5 e1
        intro hm
        exact e2 (by rw [List.map_cons]; exact List.mem_cons_of_mem _ hm)

theorem strv_env_merge_at (add pre : List String) (x : String) (post : List String) :
    ∃ pre2 y post2, strv_env_merge (pre ++ x :: post) add = pre2 ++ y :: post2 ∧
      pre2.map env_name = pre.map env_name ∧ env_name y = env_name x ∧
      ((∀ a ∈ add, env_name a ≠ env_name x) → y = x) ∧
      (∀ a ∈ add, (add.map env_name).Nodup → env_name a = env_name x →
        env_name x ∉ pre.map env_name → y = a) := by
  induction add generalizing pre x post with
  | nil => exact ⟨pre, x, post, rfl, rfl, rfl, fun _ => rfl, fun a ha => by cases ha⟩
  | cons a add ih =>
    obtain ⟨p1, y1, q1, h1, h2, h3, h4, h5⟩ := env_append_at a pre x post
    obtain ⟨p2, y2, q2, k1, k2, k3, k4, k5⟩ := ih p1 y1 q1
    refine ⟨p2, y2, q2, ?_, k2.trans h2, k3.trans h3, ?_, ?_⟩
    · rw [strv_env_merge_cons, h1, k1]
    · intro hall
      have e1 : y1 = x := h4 (fun h => hall a (List.mem_cons_self _ _) h.symm)
      have e2 : y2 = y1 := k4 (fun b hb => by
        rw [h3]; exact hall b (List.mem_cons_of_mem _ hb))
      rw [e2, e1]
    · intro b hb hnd hbx hpre
      rw [List.map_cons, List.nodup_cons] at hnd
      rcases List.mem_cons.mp hb with rfl | hmem
      · have e1 : y1 = b := h5 hbx.symm hpre
        have e2 : y2 = y1 := k4 (fun c hc hcn => by
          apply hnd.1
          rw [h3, ← hbx] at hcn
          rw [← hcn]
          exact List.mem_map_of_mem env_name hc)
        rw [e2, e1]
      · have hne : env_name x ≠ env_name a := by
          intro h
          apply hnd.1
          rw [← h, ← hbx]
          exact List.mem_map_of_mem env_name hmem
        have e1 : y1 = x := h4 hne
        apply k5 b hmem hnd.2
        · rw [h3]; exact hbx
        · rw [h3, h2]; exact hpre

theorem getElem?_split (e : List String) (i : Nat) (x : String) (h : e[i]? = some x) :
    ∃ pre post, e = pre ++ x :: post ∧ pre.length = i ∧
      ∀ z ∈ pre, ∃ j, j < i ∧ e[j]? = some z := by
  induction e generalizing i with
  | nil => simp at h
  | cons y ys ih =>
    cases i with
    | zero =>
      simp at h
      subst h
      exact ⟨[], ys, rfl, rfl, fun z hz => by cases hz⟩
    | succ i =>
      simp at h
      obtain ⟨pre, post, h1, h2, h3⟩ := ih i h
      refine ⟨y :: pre, post, by rw [h1]; rfl, by simp [h2], ?_⟩
      intro z hz
      rcases List.mem_cons.mp hz with rfl | hmem
      · exact ⟨0, Nat.succ_pos _, by simp⟩
      · obtain ⟨j, hj, hj2⟩ := h3 z hmem
        exact ⟨j + 1, Nat.succ_lt_succ hj, by simpa using hj2⟩

theorem getElem?_middle (pre : List String) (y : String) (post : List String) :
    (pre ++ y :: post)[pre.length]? = some y := by
  induction pre with
  | nil => simp
  | cons p pre ih => simpa using ih


/-! ## C9: lookup in the output table -/

/-- C9: for every table `E` that is unique by name, every resolved set `R` and
each of the 14 names `X`, in the table `locale_setup` leaves when no allocation
fails: if `R` has a value `v` for `X`, the entry found for `X` is `X=v` and it is
the only entry of that name; if `R` has no value for `X`, the entry found for
`X` is the one found in `E` (an entry or none), and the entries named `X` are
the same in both tables. -/
theorem C9_output_lookup (R : Variables) (E : List String) (X : Variable)
    (hE : (E.map env_name).Nodup) :
    (∀ v, R X = some v →
      env_get (apply_variables Alloc.ok R E).environment (variable_names X).data =
        some (strjoin (variable_names X) "=" v) ∧
      ∀ x ∈ (apply_variables Alloc.ok R E).environment,
        env_name x = (variable_names X).data → x = strjoin (variable_names X) "=" v) ∧
    (R X = none →
      env_get (apply_variables Alloc.ok R E).environment (variable_names X).data =
        env_get E (variable_names X).data ∧
      ∀ x, env_name x = (variable_names X).data →
        (x ∈ (apply_variables Alloc.ok R E).environment ↔ x ∈ E)) := by
  have hout : ((apply_variables Alloc.ok R E).environment.map env_name).Nodup := by
    rw [apply_variables_ok]
    exact strv_env_merge_nodup _ E hE
  constructor
  · intro v hv
    have hget := env_get_apply_of_set R E X v hv
    refine ⟨hget, ?_⟩
    intro x hx hn
    have h2 := env_get_of_mem _ x hout hx
    rw [hn, hget] at h2
    exact (Option.some.inj h2).symm
  · intro hnone
    have hget : env_get (apply_variables Alloc.ok R E).environment (variable_names X).data =
        env_get E (variable_names X).data := by
      apply env_get_apply_of_unset
      intro i v hv hi
      have := variable_names_injective i X hi
      subst this
      rw [hnone] at hv
      cases hv
    refine ⟨hget, ?_⟩
    intro x hn
    constructor
    · intro hx
      have h2 := env_get_of_mem _ x hout hx
      rw [hn, hget] at h2
      exact (env_get_mem _ _ _ h2).1
    · intro hx
      have h2 := env_get_of_mem _ x hE hx
      rw [hn, ← hget] at h2
      exact (env_get_mem _ _ _ h2).1

/-- C9, at a concrete table and resolved set: `LANG` is replaced, `LANGUAGE`
is looked up as before. -/
theorem C9_output_lookup_witness :
    (sample_environment.map env_name).Nodup ∧
    env_get (apply_variables Alloc.ok lang_only sample_environment).environment "LANG".data =
      some "LANG=de_DE.UTF-8" ∧
    env_get (apply_variables Alloc.ok lang_only sample_environment).environment "LANGUAGE".data =
      some "LANGUAGE=en" :=
  ⟨by decide,
    ((C9_output_lookup lang_only sample_environment .LANG (by decide)).1 "de_DE.UTF-8" rfl).1,
    ((C9_output_lookup lang_only sample_environment .LANGUAGE (by decide)).2 rfl).1⟩

/-! ## C10: positions are kept -/

/-- C10: for every table `E`, every resolved set `R` and every position `i` of
`E` holding the entry `x`, the table `locale_setup` leaves when no allocation
fails holds at position `i` an entry `y` of the same name as `x`; `y` is `x`
itself when the name of `x` has no value in `R`; and `y` is `X=v` when `x` is
named `X`, `R` has the value `v` for `X` and no earlier entry of `E` bears that
name (which holds of every entry of a table unique by name). -/
theorem C10_positions_kept (R : Variables) (E : List String) (i : Nat) (x : String)
    (hx : E[i]? = some x) :
    ∃ y, (apply_variables Alloc.ok R E).environment[i]? = some y ∧
      env_name y = env_name x ∧
      ((∀ X v, R X = some v → env_name x ≠ (variable_names X).data) → y = x) ∧
      (∀ X v, R X = some v → env_name x = (variable_names X).data →
        (∀ j z, j < i → E[j]? = some z → env_name z ≠ env_name x) →
        y = strjoin (variable_names X) "=" v) := by
  obtain ⟨pre, post, hsplit, hlen, hpre⟩ := getElem?_split E i x hx
  obtain ⟨pre2, y, post2, h1, h2, h3, h4, h5⟩ :=
    strv_env_merge_at (additions R variable_indices) pre x post
  have hlen2 : pre2.length = i := by
    have := congrArg List.length h2
    simp only [List.length_map] at this
    rw [this, hlen]
  refine ⟨y, ?_, h3, ?_, ?_⟩
  · rw [apply_variables_ok, hsplit, h1, ← hlen2]
    exact getElem?_middle pre2 y post2
  · intro hno
    apply h4
    intro a ha
    obtain ⟨X, _, v, hv, rfl⟩ := (mem_additions _ _ _).mp ha
    rw [env_name_strjoin]
    exact fun h => hno X v hv h.symm
  · intro X v hv hname hfirst
    apply h5 (strjoin (variable_names X) "=" v)
      ((mem_additions _ _ _).mpr ⟨X, mem_variable_indices X, v, hv, rfl⟩)
      (additions_names_nodup R _ variable_indices_nodup)
    · rw [env_name_strjoin, hname]
    · intro hm
      obtain ⟨z, hz, hzn⟩ := List.mem_map.mp hm
      obtain ⟨j, hj, hj2⟩ := hpre z hz
      exact hfirst j z hj hj2 hzn

/-- C10, at a concrete table: with only `LANG` resolved, position 1 (`LANG=C`)
holds `LANG=de_DE.UTF-8` afterwards and position 2 still holds `LANGUAGE=en`. -/
theorem C10_positions_kept_witness :
    sample_environment[1]? = some "LANG=C" ∧
    sample_environment[2]? = some "LANGUAGE=en" ∧
    (∃ y, (apply_variables Alloc.ok lang_only sample_environment).environment[1]? = some y ∧
      y = "LANG=de_DE.UTF-8") ∧
    (∃ y, (apply_variables Alloc.ok lang_only sample_environment).environment[2]? = some y ∧
      y = "LANGUAGE=en") :=
  ⟨rfl, rfl,
    match C10_positions_kept lang_only sample_environment 1 "LANG=C" rfl with
    | ⟨y, h1, _, _, h4⟩ =>
      ⟨y, h1, h4 .LANG "de_DE.UTF-8" rfl (by decide) (by
        intro j z hj hz
        have hj0 : j = 0 := by omega
        subst hj0
        have hz2 : z = "PATH=/bin" := (Option.some.inj hz).symm
        subst hz2
        decide)⟩,
    match C10_positions_kept lang_only sample_environment 2 "LANGUAGE=en" rfl with
    | ⟨y, h1, _, h3, _⟩ =>
      ⟨y, h1, h3 (by
        intro X v hv
        cases X <;> first | decide | (exfalso; simp [lang_only] at hv))⟩⟩


/-! ## C11: the merge is idempotent -/

theorem env_append_of_get (a : String) (e : List String)
    (h : env_get e (env_name a) = some a) : env_append a e = e := by
  induction e with
  | nil => simp [env_get] at h
  | cons x xs ih =>
    by_cases hx : env_name x = env_name a
    · have hxa : x = a := by
        simp only [env_get, List.find?_cons, hx, decide_True] at h
        exact Option.some.inj h
      rw [env_append, if_pos hx, hxa]
    · have h2 : env_get xs (env_name a) = some a := by
        simp only [env_get, List.find?_cons, hx, decide_False] at h
        exact h
      rw [env_append, if_neg hx, ih h2]

theorem strv_env_merge_of_get (add e : List String)
    (h : ∀ a ∈ add, env_get e (env_name a) = some a) : strv_env_merge e add = e := by
  induction add with
  | nil => rfl
  | cons a add ih =>
    rw [strv_env_merge_cons, env_append_of_get a e (h a (List.mem_cons_self _ _))]
    exact ih (fun b hb => h b (List.mem_cons_of_mem _ hb))

theorem strv_env_merge_idem (add e : List String) (hn : (add.map env_name).Nodup) :
    strv_env_merge (strv_env_merge e add) add = strv_env_merge e add :=
  strv_env_merge_of_get add _ (fun a ha => env_get_merge_of_mem add e a ha hn)

theorem build_add_some (a : Alloc) (vars : Variables) (is : List Variable)
    (acc r : List String) (h : build_add a vars is acc = some r) :
    r = acc ++ additions vars is := by
  induction is generalizing acc with
  | nil =>
    simp only [build_add] at h
    simp [additions, ← Option.some.inj h]
  | cons i is ih =>
    cases hv : vars i with
    | none =>
      simp only [build_add, hv] at h
      rw [ih acc h]
      simp [additions, hv]
    | some v =>
      simp only [build_add, hv] at h
      split_ifs at h with h1 h2
      rw [ih _ h]
      simp [additions, hv]

/-- C11: for every table `E` and every resolved set `R`, merging the additions
of `R` onto the table obtained by merging them onto `E` gives that table again;
and for every way allocations succeed or fail, and all contents of the sources,
a second run of `locale_setup` on the table left by the first run returns the
result (status and table) of the first run. -/
theorem C11_merge_idempotent (a : Alloc) (inp : Input) (R : Variables) (E : List String) :
    strv_env_merge (strv_env_merge E (additions R variable_indices))
        (additions R variable_indices) =
      strv_env_merge E (additions R variable_indices) ∧
    apply_variables a R (apply_variables a R E).environment = apply_variables a R E ∧
    locale_setup a inp (locale_setup a inp E).environment = locale_setup a inp E := by
  have hn := additions_names_nodup R variable_indices variable_indices_nodup
  have key : ∀ R : Variables,
      apply_variables a R (apply_variables a R E).environment = apply_variables a R E := by
    intro R
    have hn := additions_names_nodup R variable_indices variable_indices_nodup
    unfold apply_variables
    cases hb : build_add a R variable_indices [] with
    | none => rfl
    | some add =>
      have hadd : add = additions R variable_indices := by
        simpa using build_add_some a R variable_indices [] add hb
      by_cases he : add.isEmpty = false
      · by_cases hm : a.strv_env_merge = true
        · simp only [he, hm, if_true]
          rw [hadd, strv_env_merge_idem _ E hn]
        · simp only [he, hm, if_true, if_false, Bool.false_eq_true]
      · have he2 : add.isEmpty = true := by simpa using he
        simp [he2]
  exact ⟨strv_env_merge_idem _ E hn, key R, key _⟩

/-! ## C12: other values of `ROOT_USES_LANG` -/

/-- C12: with legacy support compiled in, when `ROOT_USES_LANG` is absent, or
differs ignoring case from both "yes" and "ctype", the resolved set equals the
result of steps 1-2, for every `RC_LANG` and `RC_LC_CTYPE`. -/
theorem C12_other_root_uses_lang (sd : Bool) (inp : Input)
    (hsysv : inp.have_sysv_compat = true)
    (hu : inp.etc_sysconfig_language.root_uses_lang = none ∨
      ∃ u, inp.etc_sysconfig_language.root_uses_lang = some u ∧
        strcaseeq u "yes" = false ∧ strcaseeq u "ctype" = false) :
    resolve sd inp = steps12 inp := by
  simp only [resolve, hsysv, if_true]
  rcases hu with h | ⟨u, h, hy, hc⟩
  · exact sysv_compat_absent sd _ _ h
  · exact sysv_compat_other sd _ _ u h hy hc

/-- C12, at a concrete input: `ROOT_USES_LANG` holds "yes " (with a trailing
blank), `RC_LANG=en_US.UTF-8`, nothing else configured. -/
theorem C12_other_root_uses_lang_witness :
    strcaseeq "yes " "yes" = false ∧ strcaseeq "yes " "ctype" = false ∧
    strcaseeq "no" "yes" = false ∧ strcaseeq "" "yes" = false ∧
    resolve true trailing_blank_input = steps12 trailing_blank_input :=
  ⟨by decide, by decide, by decide, by decide,
    C12_other_root_uses_lang true trailing_blank_input rfl
      (Or.inr ⟨"yes ", rfl, by decide, by decide⟩)⟩

/-! ## C13: what the legacy derivation may change -/

theorem sysv_compat_frame (sd : Bool) (s : Sysconfig) (vars : Variables) (i : Variable)
    (h1 : i ≠ .LANG) (h2 : i ≠ .LC_CTYPE) : sysv_compat sd s vars i = vars i := by
  cases hu : s.root_uses_lang with
  | none => rw [sysv_compat_absent sd s vars hu]
  | some u =>
    cases hy : strcaseeq u "yes" with
    | true =>
      rw [sysv_compat_yes sd s vars u hu hy]
      split_ifs
      · exact Function.update_noteq h1 _ _
      · rfl
    | false =>
      cases hc : strcaseeq u "ctype" with
      | true =>
        rw [sysv_compat_ctype sd s vars u hu hc]
        split_ifs <;> first | rfl | exact Function.update_noteq h2 _ _
      | false => rw [sysv_compat_other sd s vars u hu hy hc]

theorem sysv_compat_one_of (sd : Bool) (s : Sysconfig) (vars : Variables) :
    (∀ i, i ≠ .LANG → sysv_compat sd s vars i = vars i) ∨
    (∀ i, i ≠ .LC_CTYPE → sysv_compat sd s vars i = vars i) := by
  cases hu : s.root_uses_lang with
  | none => left; intro i _; rw [sysv_compat_absent sd s vars hu]
  | some u =>
    cases hy : strcaseeq u "yes" with
    | true =>
      left
      intro i hi
      rw [sysv_compat_yes sd s vars u hu hy]
      split_ifs
      · exact Function.update_noteq hi _ _
      · rfl
    | false =>
      right
      intro i hi
      cases hc : strcaseeq u "ctype" with
      | true =>
        rw [sysv_compat_ctype sd s vars u hu hc]
        split_ifs <;> first | rfl | exact Function.update_noteq hi _ _
      | false => rw [sysv_compat_other sd s vars u hu hy hc]

/-- C13: for every input (with or without legacy support, whether or not the
`strdup` succeeds), each variable other than `LANG` and `LC_CTYPE` has in the
resolved set the value it has after steps 1-2; every variable set after steps
1-2 keeps its value; and any two variables whose resolved value differs from
their value after steps 1-2 are the same variable (at most one differs). -/
theorem C13_legacy_frame (sd : Bool) (inp : Input) :
    (∀ i, i ≠ .LANG → i ≠ .LC_CTYPE → resolve sd inp i = steps12 inp i) ∧
    (∀ i v, steps12 inp i = some v → resolve sd inp i = some v) ∧
    (∀ i j, resolve sd inp i ≠ steps12 inp i → resolve sd inp j ≠ steps12 inp j → i = j) := by
  refine ⟨?_, fun i v h => resolve_of_set sd inp i v h, ?_⟩
  · intro i h1 h2
    unfold resolve
    split_ifs
    · exact sysv_compat_frame sd _ _ i h1 h2
    · rfl
  · intro i j hi hj
    unfold resolve at hi hj
    split_ifs at hi hj
    · rcases sysv_compat_one_of sd inp.etc_sysconfig_language (steps12 inp) with h | h
      · have e1 : i = .LANG := by
          by_contra hne
          exact hi (h i hne)
        have e2 : j = .LANG := by
          by_contra hne
          exact hj (h j hne)
        rw [e1, e2]
      · have e1 : i = .LC_CTYPE := by
          by_contra hne
          exact hi (h i hne)
        have e2 : j = .LC_CTYPE := by
          by_contra hne
          exact hj (h j hne)
        rw [e1, e2]
    · exact absurd rfl hi


/-- C13, at a concrete input (`ROOT_USES_LANG=yes`, `RC_LANG=en_US.UTF-8`, only
`LC_TIME` set by the primary configuration file): `LC_TIME` keeps its value
and `LANG` is the variable that changed. -/
theorem C13_legacy_frame_witness :
    steps12 legacy_gate_input .LC_TIME = some "de_DE.UTF-8" ∧
    resolve true legacy_gate_input .LC_TIME = some "de_DE.UTF-8" ∧
    resolve true legacy_gate_input .LC_CTYPE = steps12 legacy_gate_input .LC_CTYPE :=
  ⟨by decide,
    (C13_legacy_frame true legacy_gate_input).2.1 .LC_TIME "de_DE.UTF-8" (by decide),
    by
      by_contra h
      have := (C13_legacy_frame true legacy_gate_input).2.2 .LC_CTYPE .LANG h (by decide)
      cases this⟩

/-! ## C14: read errors -/

theorem steps12_eq (inp : Input) (i : Variable) :
    steps12 inp i =
      if inp.detect_container ≤ 0 then
        if inp.proc_cmdline.ret ≤ 0 then
          match inp.etc_locale_conf.values i with
          | some v => some v
          | none => inp.proc_cmdline.values i
        else inp.proc_cmdline.values i
      else inp.etc_locale_conf.values i := by
  by_cases hc : inp.detect_container ≤ 0
  · by_cases hr : inp.proc_cmdline.ret ≤ 0
    · simp only [steps12, read_proc_cmdline, hc, if_true, read_etc_locale_conf, parse_env_file, hr,
        variables_init]
      cases inp.etc_locale_conf.values i with
      | none => cases inp.proc_cmdline.values i <;> rfl
      | some v => rfl
    · rw [if_pos hc, if_neg hr]
      exact steps12_of_matched inp hc (not_le.mp hr) i
  · rw [if_neg hc]
    exact steps12_of_container inp (not_le.mp hc) i

theorem steps12_congr (inp inp2 : Input)
    (h1 : inp.detect_container = inp2.detect_container)
    (h2 : inp.proc_cmdline.ret ≤ 0 ↔ inp2.proc_cmdline.ret ≤ 0)
    (h3 : inp.proc_cmdline.values = inp2.proc_cmdline.values)
    (h4 : inp.etc_locale_conf.values = inp2.etc_locale_conf.values) :
    steps12 inp = steps12 inp2 := by
  funext i
  rw [steps12_eq inp i, steps12_eq inp2 i, h1, h3, h4]
  by_cases hr : inp.proc_cmdline.ret ≤ 0
  · rw [if_pos hr, if_pos (h2.mp hr)]
  · rw [if_neg hr, if_neg (fun h => hr (h2.mpr h))]

theorem locale_setup_status_ok (inp : Input) (E : List String) :
    (locale_setup Alloc.ok inp E).status = 0 := by
  simp only [locale_setup, apply_variables_ok]

/-- C14: let `f` be a failed read of the 14 locale keys (negative return value
other than `-ENOENT`, nothing stored) and `s` a failed read of the legacy file.
For each of the three sources, `locale_setup` with the failed read in its place
gives the same result (status and table) as with that file absent, the other
sources and the allocation behaviour being the same; when no allocation fails
the status is 0; and after a failed boot-parameter read every variable has the
primary configuration source's value after steps 1-2. -/
theorem C14_read_errors_degrade (a : Alloc) (inp : Input) (E : List String)
    (f : EnvFile) (s : Sysconfig)
    (hf1 : f.ret < 0) (_hf2 : f.ret ≠ -ENOENT) (hf3 : ∀ i, f.values i = none)
    (_hs1 : s.ret < 0) (_hs2 : s.ret ≠ -ENOENT) (_hs3 : s.rc_lang = none)
    (_hs4 : s.rc_lc_ctype = none) (hs5 : s.root_uses_lang = none) :
    locale_setup a { inp with proc_cmdline := f } E =
      locale_setup a { inp with proc_cmdline := absent_file } E ∧
    locale_setup a { inp with etc_locale_conf := f } E =
      locale_setup a { inp with etc_locale_conf := absent_file } E ∧
    locale_setup a { inp with etc_sysconfig_language := s } E =
      locale_setup a { inp with etc_sysconfig_language := absent_sysconfig } E ∧
    (locale_setup Alloc.ok { inp with proc_cmdline := f } E).status = 0 ∧
    (locale_setup Alloc.ok { inp with etc_locale_conf := f } E).status = 0 ∧
    (locale_setup Alloc.ok { inp with etc_sysconfig_language := s } E).status = 0 ∧
    (∀ i, steps12 { inp with proc_cmdline := f } i = inp.etc_locale_conf.values i) := by
  have hv : f.values = absent_file.values := by
    funext i
    rw [hf3 i]
    rfl
  have hle : f.ret ≤ 0 := le_of_lt hf1
  have habs : absent_file.ret ≤ 0 := by decide
  have e1 : steps12 { inp with proc_cmdline := f } =
      steps12 { inp with proc_cmdline := absent_file } :=
    steps12_congr { inp with proc_cmdline := f } { inp with proc_cmdline := absent_file } rfl
      ⟨fun _ => habs, fun _ => hle⟩ hv rfl
  have e2 : steps12 { inp with etc_locale_conf := f } =
      steps12 { inp with etc_locale_conf := absent_file } :=
    steps12_congr { inp with etc_locale_conf := f } { inp with etc_locale_conf := absent_file }
      rfl Iff.rfl rfl hv
  have e3 : resolve a.strdup { inp with etc_sysconfig_language := s } =
      resolve a.strdup { inp with etc_sysconfig_language := absent_sysconfig } := by
    have h12 : steps12 { inp with etc_sysconfig_language := s } =
        steps12 { inp with etc_sysconfig_language := absent_sysconfig } := rfl
    unfold resolve
    rw [h12]
    show (if inp.have_sysv_compat = true then sysv_compat a.strdup s _ else _) =
      (if inp.have_sysv_compat = true then sysv_compat a.strdup absent_sysconfig _ else _)
    rw [sysv_compat_absent a.strdup s _ hs5, sysv_compat_absent a.strdup absent_sysconfig _ rfl]
  refine ⟨?_, ?_, ?_, locale_setup_status_ok _ E, locale_setup_status_ok _ E,
    locale_setup_status_ok _ E, ?_⟩
  · simp only [locale_setup]
    rw [resolve_congr a.strdup { inp with proc_cmdline := f }
      { inp with proc_cmdline := absent_file } rfl rfl e1]
  · simp only [locale_setup]
    rw [resolve_congr a.strdup { inp with etc_locale_conf := f }
      { inp with etc_locale_conf := absent_file } rfl rfl e2]
  · simp only [locale_setup]
    rw [e3]
  · intro i
    exact steps12_of_unmatched { inp with proc_cmdline := f } hle i (hf3 i)

/-- C14, at a concrete input: reading `/proc/cmdline` fails with `-EACCES`
(-13), the primary configuration file holds `LANG=fr_FR.UTF-8`. -/
theorem C14_read_errors_degrade_witness :
    failed_file.ret < 0 ∧ failed_file.ret ≠ -ENOENT ∧
    locale_setup Alloc.ok { boot_wins_input with proc_cmdline := failed_file }
        sample_environment =
      locale_setup Alloc.ok { boot_wins_input with proc_cmdline := absent_file }
        sample_environment ∧
    steps12 { boot_wins_input with proc_cmdline := failed_file } .LANG =
      boot_wins_input.etc_locale_conf.values .LANG :=
  ⟨by decide, by decide,
    (C14_read_errors_degrade Alloc.ok boot_wins_input sample_environment failed_file
      failed_sysconfig (by decide) (by decide) (fun _ => rfl) (by decide) (by decide)
      rfl rfl rfl).1,
    (C14_read_errors_degrade Alloc.ok boot_wins_input sample_environment failed_file
      failed_sysconfig (by decide) (by decide) (fun _ => rfl) (by decide) (by decide)
      rfl rfl rfl).2.2.2.2.2.2 .LANG⟩


/-! ## C15: the status -/

theorem build_add_eq_none (a : Alloc) (vars : Variables) (is : List Variable)
    (acc : List String) :
    build_add a vars is acc = none ↔
      ∃ i ∈ is, ∃ v, vars i = some v ∧ (a.strjoin i = false ∨ a.strv_push i = false) := by
  induction is generalizing acc with
  | nil => simp [build_add]
  | cons i is ih =>
    have lift : (∃ j ∈ is, ∃ w, vars j = some w ∧ (a.strjoin j = false ∨ a.strv_push j = false)) →
        ∃ j ∈ i :: is, ∃ w, vars j = some w ∧ (a.strjoin j = false ∨ a.strv_push j = false) := by
      rintro ⟨j, hj, w, hjw, hf⟩
      exact ⟨j, List.mem_cons_of_mem _ hj, w, hjw, hf⟩
    cases hv : vars i with
    | none =>
      have e : build_add a vars (i :: is) acc = build_add a vars is acc := by
        simp only [build_add, hv]
      rw [e, ih]
      constructor
      · exact lift
      · rintro ⟨j, hj, w, hjw, hf⟩
        rcases List.mem_cons.mp hj with hj | hj
        · subst hj; rw [hv] at hjw; cases hjw
        · exact ⟨j, hj, w, hjw, hf⟩
    | some v =>
      by_cases h1 : a.strjoin i = false
      · have e : build_add a vars (i :: is) acc = none := by
          simp only [build_add, hv, h1, if_true]
        rw [e]
        exact ⟨fun _ => ⟨i, List.mem_cons_self _ _, v, hv, Or.inl h1⟩, fun _ => rfl⟩
      · by_cases h2 : a.strv_push i = false
        · have e : build_add a vars (i :: is) acc = none := by
            simp [build_add, hv, h1, h2]
          rw [e]
          exact ⟨fun _ => ⟨i, List.mem_cons_self _ _, v, hv, Or.inr h2⟩, fun _ => rfl⟩
        · have e : build_add a vars (i :: is) acc =
              build_add a vars is (acc ++ [strjoin (variable_names i) "=" v]) := by
            simp [build_add, hv, h1, h2]
          rw [e, ih]
          constructor
          · exact lift
          · rintro ⟨j, hj, w, hjw, hf⟩
            rcases List.mem_cons.mp hj with hj | hj
            · subst hj
              rcases hf with hf | hf
              · exact absurd hf h1
              · exact absurd hf h2
            · exact ⟨j, hj, w, hjw, hf⟩

theorem additions_ne_nil (vars : Variables) (i : Variable) (v : String) (h : vars i = some v) :
    (additions vars variable_indices).isEmpty = false := by
  have hmem : strjoin (variable_names i) "=" v ∈ additions vars variable_indices :=
    (mem_additions _ _ _).mpr ⟨i, mem_variable_indices i, v, h, rfl⟩
  cases hadd : additions vars variable_indices with
  | nil => rw [hadd] at hmem; cases hmem
  | cons x xs => rfl

theorem apply_variables_cases (a : Alloc) (vars : Variables) (E : List String) :
    ((∃ i v, vars i = some v ∧ (a.strjoin i = false ∨ a.strv_push i = false)) →
      apply_variables a vars E = { status := -ENOMEM, environment := E }) ∧
    ((∃ i v, vars i = some v) → a.strv_env_merge = false →
      apply_variables a vars E = { status := -ENOMEM, environment := E }) ∧
    ((∀ i v, vars i = some v → a.strjoin i = true ∧ a.strv_push i = true) →
      ((∃ i v, vars i = some v) → a.strv_env_merge = true) →
      apply_variables a vars E =
        { status := 0, environment := strv_env_merge E (additions vars variable_indices) }) := by
  refine ⟨?_, ?_, ?_⟩
  · rintro ⟨i, v, hv, hf⟩
    have hb : build_add a vars variable_indices [] = none :=
      (build_add_eq_none a vars variable_indices []).mpr ⟨i, mem_variable_indices i, v, hv, hf⟩
    simp only [apply_variables, hb]
  · rintro ⟨i, v, hv⟩ hm
    cases hb : build_add a vars variable_indices [] with
    | none => simp only [apply_variables, hb]
    | some add =>
      have hadd : add = additions vars variable_indices := by
        simpa using build_add_some a vars variable_indices [] add hb
      have he := additions_ne_nil vars i v hv
      rw [← hadd] at he
      simp only [apply_variables, hb, he, hm, if_true, if_false, Bool.false_eq_true]
  · intro hall hmerge
    cases hb : build_add a vars variable_indices [] with
    | none =>
      obtain ⟨i, _, v, hv, hf⟩ := (build_add_eq_none a vars variable_indices []).mp hb
      have := hall i v hv
      rcases hf with hf | hf
      · rw [this.1] at hf; cases hf
      · rw [this.2] at hf; cases hf
    | some add =>
      have hadd : add = additions vars variable_indices := by
        simpa using build_add_some a vars variable_indices [] add hb
      subst hadd
      by_cases he : (additions vars variable_indices).isEmpty = false
      · have hne : ∃ i v, vars i = some v := by
          cases hadd2 : additions vars variable_indices with
          | nil => rw [hadd2] at he; cases he
          | cons x xs =>
            have hx : x ∈ additions vars variable_indices := by
              rw [hadd2]; exact List.mem_cons_self _ _
            obtain ⟨i, _, v, hv, _⟩ := (mem_additions _ _ _).mp hx
            exact ⟨i, v, hv⟩
        simp only [apply_variables, hb, he, hmerge hne, if_true]
      · have he2 : (additions vars variable_indices).isEmpty = true := by simpa using he
        have hnil : additions vars variable_indices = [] := List.isEmpty_iff.mp he2
        simp only [apply_variables, hb, he2, Bool.true_eq_false, if_false]
        rw [hnil, strv_env_merge_nil]

/-- C15: `locale_setup` returns 0 or `-ENOMEM`. If the `strjoin` or the
`strv_push` of a variable that has a resolved value fails, or some variable has
a resolved value (so that the merge is called) and `strv_env_merge` fails, the
status is `-ENOMEM` and the table is the original one. If none of them fails
the status is 0. -/
theorem C15_status (a : Alloc) (inp : Input) (E : List String) :
    ((locale_setup a inp E).status = 0 ∨ (locale_setup a inp E).status = -ENOMEM) ∧
    ((∃ i v, resolve a.strdup inp i = some v ∧ (a.strjoin i = false ∨ a.strv_push i = false)) →
      locale_setup a inp E = { status := -ENOMEM, environment := E }) ∧
    ((∃ i v, resolve a.strdup inp i = some v) → a.strv_env_merge = false →
      locale_setup a inp E = { status := -ENOMEM, environment := E }) ∧
    ((∀ i v, resolve a.strdup inp i = some v → a.strjoin i = true ∧ a.strv_push i = true) →
      ((∃ i v, resolve a.strdup inp i = some v) → a.strv_env_merge = true) →
      (locale_setup a inp E).status = 0) := by
  obtain ⟨h1, h2, h3⟩ := apply_variables_cases a (resolve a.strdup inp) E
  refine ⟨?_, h1, h2, ?_⟩
  · unfold locale_setup apply_variables
    cases build_add a (resolve a.strdup inp) variable_indices [] with
    | none => right; rfl
    | some add =>
      by_cases he : add.isEmpty = false
      · by_cases hm : a.strv_env_merge = true
        · left; simp only [he, hm, if_true]
        · right; simp only [he, hm, if_true, if_false, Bool.false_eq_true]
      · have he2 : add.isEmpty = true := by simpa using he
        left; simp [he2]
  · intro hall hmerge
    unfold locale_setup
    rw [h3 hall hmerge]

/-- C15, at a concrete input: the kernel command line sets `LANG` and the
`strjoin` for `LANG` fails; the status is `-ENOMEM` and the table is the
original one. -/
theorem C15_status_witness :
    resolve true boot_wins_input .LANG = some "C" ∧
    locale_setup strjoin_fails boot_wins_input sample_environment =
      { status := -ENOMEM, environment := sample_environment } :=
  ⟨by decide,
    (C15_status strjoin_fails boot_wins_input sample_environment).2.1
      ⟨.LANG, "C", by decide, Or.inl rfl⟩⟩


/-! ## C16: the empty string is a value -/

/-- C16: an empty string counts as set. If steps 1-2 leave `LANG` set to the
empty string, the resolved `LANG` is the empty string whatever the legacy file
holds (so `ROOT_USES_LANG=yes` does not replace it by `RC_LANG`); with
`ROOT_USES_LANG` equal to "ctype" ignoring case and `LC_CTYPE` absent, the
resolved `LC_CTYPE` is the empty string (the `strdup` succeeding); and when no
allocation fails the table holds the entry `LANG=`, found for the name `LANG`.
Under `ROOT_USES_LANG` equal to "yes" an empty `RC_LANG` is assigned to an
absent `LANG`, whereas under "ctype", with `LANG` and `LC_CTYPE` absent, empty
`RC_LC_CTYPE` and `RC_LANG` leave `LC_CTYPE` absent. -/
theorem C16_empty_string_is_set (sd : Bool) (inp : Input) (E : List String) (u : String)
    (hsysv : inp.have_sysv_compat = true)
    (hu : inp.etc_sysconfig_language.root_uses_lang = some u) :
    (steps12 inp .LANG = some "" → resolve sd inp .LANG = some "") ∧
    (steps12 inp .LANG = some "" → steps12 inp .LC_CTYPE = none →
      strcaseeq u "ctype" = true → resolve true inp .LC_CTYPE = some "") ∧
    (steps12 inp .LANG = some "" →
      "LANG=" ∈ (locale_setup Alloc.ok inp E).environment ∧
      env_get (locale_setup Alloc.ok inp E).environment "LANG".data = some "LANG=") ∧
    (steps12 inp .LANG = none → strcaseeq u "yes" = true →
      inp.etc_sysconfig_language.rc_lang = some "" → resolve sd inp .LANG = some "") ∧
    (steps12 inp .LANG = none → steps12 inp .LC_CTYPE = none → strcaseeq u "ctype" = true →
      inp.etc_sysconfig_language.rc_lc_ctype = some "" →
      inp.etc_sysconfig_language.rc_lang = some "" → resolve sd inp .LC_CTYPE = none) := by
  refine ⟨fun h => resolve_of_set sd inp .LANG "" h, ?_, ?_, ?_, ?_⟩
  · intro h1 h2 hc
    simp only [resolve, hsysv, if_true]
    rw [sysv_compat_ctype true _ _ u hu hc, h2, h1]
    simp
  · intro h1
    have hget := env_get_apply_of_set (resolve Alloc.ok.strdup inp) E .LANG ""
      (resolve_of_set _ inp .LANG "" h1)
    have e : strjoin (variable_names .LANG) "=" "" = "LANG=" := by decide
    rw [e] at hget
    exact ⟨(env_get_mem _ _ _ hget).1, hget⟩
  · intro h1 hy hr
    simp only [resolve, hsysv, if_true]
    rw [sysv_compat_yes sd _ _ u hu hy, h1, hr]
    simp
  · intro h1 h2 hc hr1 hr2
    simp only [resolve, hsysv, if_true]
    rw [sysv_compat_ctype sd _ _ u hu hc, h2, h1, hr1, hr2]
    simp [set_nonempty, h2]

/-- C16, at a concrete input: the primary configuration file holds `LANG=`
(empty), the legacy file `ROOT_USES_LANG=yes`, `RC_LANG=en_US.UTF-8`. -/
theorem C16_empty_string_is_set_witness :
    steps12 empty_lang_input .LANG = some "" ∧
    resolve true empty_lang_input .LANG = some "" ∧
    env_get (locale_setup Alloc.ok empty_lang_input sample_environment).environment
      "LANG".data = some "LANG=" :=
  ⟨by decide,
    (C16_empty_string_is_set true empty_lang_input sample_environment "yes" rfl rfl).1
      (by decide),
    ((C16_empty_string_is_set true empty_lang_input sample_environment "yes" rfl rfl).2.2.1
      (by decide)).2⟩

/-! ## C17: the appended entries -/

theorem env_append_of_not_mem (a : String) (l : List String)
    (h : env_name a ∉ l.map env_name) : env_append a l = l ++ [a] := by
  induction l with
  | nil => rfl
  | cons x xs ih =>
    rw [List.map_cons, List.mem_cons, not_or] at h
    rw [env_append, if_neg (fun hx => h.1 hx.symm), ih h.2]
    rfl

theorem env_append_append_of_mem (a : String) (e t : List String)
    (h : env_name a ∈ e.map env_name) : env_append a (e ++ t) = env_append a e ++ t := by
  induction e with
  | nil => simp at h
  | cons x xs ih =>
    by_cases hx : env_name x = env_name a
    · simp [env_append, hx]
    · have h2 : env_name a ∈ xs.map env_name := by
        rw [List.map_cons, List.mem_cons] at h
        rcases h with h | h
        · exact absurd h.symm hx
        · exact h
      rw [List.cons_append, env_append, if_neg hx, ih h2, env_append, if_neg hx]
      rfl

theorem strv_env_merge_split (add e t : List String) (hn : (add.map env_name).Nodup)
    (ht : ∀ a ∈ add, env_name a ∉ t.map env_name) :
    ∃ e2, strv_env_merge (e ++ t) add =
        e2 ++ (t ++ add.filter (fun a => decide (env_name a ∉ e.map env_name))) ∧
      e2.map env_name = e.map env_name := by
  induction add generalizing e t with
  | nil => exact ⟨e, by simp [strv_env_merge_nil], rfl⟩
  | cons a add ih =>
    rw [List.map_cons, List.nodup_cons] at hn
    by_cases hm : env_name a ∈ e.map env_name
    · have hnames : (env_append a e).map env_name = e.map env_name := by
        rw [env_append_names, if_pos hm]
      obtain ⟨e2, h1, h2⟩ := ih (env_append a e) t hn.2
        (fun b hb => ht b (List.mem_cons_of_mem _ hb))
      refine ⟨e2, ?_, h2.trans hnames⟩
      rw [strv_env_merge_cons, env_append_append_of_mem a e t hm, h1, hnames,
        List.filter_cons_of_neg (by simpa using hm)]
    · have hnt : env_name a ∉ (e ++ t).map env_name := by
        rw [List.map_append, List.mem_append, not_or]
        exact ⟨hm, ht a (List.mem_cons_self _ _)⟩
      obtain ⟨e2, h1, h2⟩ := ih e (t ++ [a]) hn.2 (by
        intro b hb hbm
        rw [List.map_append, List.mem_append] at hbm
        rcases hbm with hbm | hbm
        · exact ht b (List.mem_cons_of_mem _ hb) hbm
        · simp only [List.map_cons, List.map_nil, List.mem_singleton] at hbm
          exact hn.1 (hbm ▸ List.mem_map_of_mem env_name hb))
      refine ⟨e2, ?_, h2⟩
      rw [strv_env_merge_cons, env_append_of_not_mem a _ hnt, List.append_assoc, h1,
        List.filter_cons_of_pos (by simpa using hm)]
      simp

theorem additions_filter (vars : Variables) (is : List Variable) (names : List (List Char)) :
    (additions vars is).filter (fun a => decide (env_name a ∉ names)) =
      additions vars (is.filter (fun i => decide ((variable_names i).data ∉ names))) := by
  induction is with
  | nil => rfl
  | cons i is ih =>
    have hcons : ∀ js, additions vars (i :: js) =
        (match vars i with
          | some v => [strjoin (variable_names i) "=" v]
          | none => []) ++ additions vars js := by
      intro js
      cases hv : vars i <;> simp [additions, hv]
    by_cases hi : (variable_names i).data ∈ names
    · rw [List.filter_cons_of_neg (by simpa using hi), ← ih, hcons]
      cases hv : vars i with
      | none => simp
      | some v =>
        simp only [List.singleton_append]
        rw [List.filter_cons_of_neg (by rw [env_name_strjoin]; simpa using hi)]
    · rw [List.filter_cons_of_pos (by simpa using hi), hcons, hcons, ← ih]
      cases hv : vars i with
      | none => simp
      | some v =>
        simp only [List.singleton_append]
        rw [List.filter_cons_of_pos (by rw [env_name_strjoin]; simpa using hi)]

theorem additions_length (vars : Variables) (is : List Variable) :
    (additions vars is).length = (is.filter (fun i => (vars i).isSome)).length := by
  induction is with
  | nil => rfl
  | cons i is ih =>
    cases hv : vars i with
    | none =>
      have : additions vars (i :: is) = additions vars is := by simp [additions, hv]
      rw [this, ih, List.filter_cons_of_neg (by simp [hv])]
    | some v =>
      have : additions vars (i :: is) =
          strjoin (variable_names i) "=" v :: additions vars is := by simp [additions, hv]
      rw [this, List.filter_cons_of_pos (by simp [hv]), List.length_cons, List.length_cons, ih]

/-- C17: for every table `E` and every resolved set `R`, in the table
`locale_setup` leaves when no allocation fails, the entries after the first
`E.length` ones are the `NAME=VALUE` strings of the variables that have a value
in `R` and whose name is the name of no entry of `E`, in the declared order
`LANG`, `LANGUAGE`, `LC_CTYPE`, ..., `LC_IDENTIFICATION`; and the length of the
table is `E.length` plus the number of these variables. -/
theorem C17_appended_entries (R : Variables) (E : List String) :
    (apply_variables Alloc.ok R E).environment.drop E.length =
      additions R
        ([Variable.LANG, .LANGUAGE, .LC_CTYPE, .LC_NUMERIC, .LC_TIME, .LC_COLLATE,
          .LC_MONETARY, .LC_MESSAGES, .LC_PAPER, .LC_NAME, .LC_ADDRESS, .LC_TELEPHONE,
          .LC_MEASUREMENT, .LC_IDENTIFICATION].filter
          (fun i => decide ((variable_names i).data ∉ E.map env_name))) ∧
    (apply_variables Alloc.ok R E).environment.length =
      E.length +
        ((variable_indices.filter
          (fun i => decide ((variable_names i).data ∉ E.map env_name))).filter
          (fun i => (R i).isSome)).length := by
  obtain ⟨e2, h1, h2⟩ := strv_env_merge_split (additions R variable_indices) E []
    (additions_names_nodup R variable_indices variable_indices_nodup) (fun _ _ h => by simp at h)
  have hlen : e2.length = E.length := by
    have := congrArg List.length h2
    simpa using this
  rw [List.append_nil, List.nil_append, additions_filter] at h1
  rw [apply_variables_ok, h1]
  constructor
  · rw [← hlen, List.drop_left]
    rfl
  · rw [List.length_append, hlen, additions_length]


/-! ## C18, C19: invariants of the table -/

theorem apply_variables_environment (a : Alloc) (vars : Variables) (E : List String) :
    (apply_variables a vars E).environment = E ∨
    (apply_variables a vars E).environment =
      strv_env_merge E (additions vars variable_indices) := by
  unfold apply_variables
  cases hb : build_add a vars variable_indices [] with
  | none => left; rfl
  | some add =>
    have hadd : add = additions vars variable_indices := by
      simpa using build_add_some a vars variable_indices [] add hb
    subst hadd
    by_cases he : (additions vars variable_indices).isEmpty = false
    · by_cases hm : a.strv_env_merge = true
      · right; simp only [he, hm, if_true]
      · left; simp only [he, hm, if_true, if_false, Bool.false_eq_true]
    · have he2 : (additions vars variable_indices).isEmpty = true := by simpa using he
      left; simp [he2]

/-- C18: for every table in which no two entries share a name, every content
of the three sources and every way allocations succeed or fail, no two entries
of the table `locale_setup` leaves share a name. -/
theorem C18_unique_names_kept (a : Alloc) (inp : Input) (E : List String)
    (hE : (E.map env_name).Nodup) :
    ((locale_setup a inp E).environment.map env_name).Nodup := by
  unfold locale_setup
  rcases apply_variables_environment a (resolve a.strdup inp) E with h | h
  · rw [h]; exact hE
  · rw [h]; exact strv_env_merge_nodup _ E hE

/-- C18, at a concrete input: `LANG=C` is replaced, not duplicated. -/
theorem C18_unique_names_kept_witness :
    (sample_environment.map env_name).Nodup ∧
    ((locale_setup Alloc.ok boot_wins_input sample_environment).environment.map env_name).Nodup :=
  ⟨by decide, C18_unique_names_kept Alloc.ok boot_wins_input sample_environment (by decide)⟩

theorem mem_env_append (a x : String) (e : List String) (h : x ∈ env_append a e) :
    x = a ∨ x ∈ e := by
  induction e with
  | nil =>
    simp only [env_append, List.mem_singleton] at h
    exact Or.inl h
  | cons y ys ih =>
    by_cases hy : env_name y = env_name a
    · rw [env_append, if_pos hy] at h
      rcases List.mem_cons.mp h with h | h
      · exact Or.inl h
      · exact Or.inr (List.mem_cons_of_mem _ h)
    · rw [env_append, if_neg hy] at h
      rcases List.mem_cons.mp h with h | h
      · exact Or.inr (h ▸ List.mem_cons_self _ _)
      · rcases ih h with h | h
        · exact Or.inl h
        · exact Or.inr (List.mem_cons_of_mem _ h)

theorem mem_strv_env_merge (add e : List String) (x : String)
    (h : x ∈ strv_env_merge e add) : x ∈ e ∨ x ∈ add := by
  induction add generalizing e with
  | nil => exact Or.inl h
  | cons a add ih =>
    rw [strv_env_merge_cons] at h
    rcases ih _ h with h | h
    · rcases mem_env_append a x e h with h | h
      · exact Or.inr (h ▸ List.mem_cons_self _ _)
      · exact Or.inl h
    · exact Or.inr (List.mem_cons_of_mem _ h)

theorem variable_names_ne_lc_all (i : Variable) : (variable_names i).data ≠ "LC_ALL".data := by
  cases i <;> decide

/-- C19: for every input and every way allocations succeed or fail, every entry
of the table `locale_setup` leaves is an entry of the input table or the string
`NAME=VALUE` of one of the 14 variables with its resolved value; an entry named
`LC_ALL` of the output is an entry of the input table; and an entry named
`LC_ALL` of the input table is found unchanged at its position. -/
theorem C19_only_recognized_names (a : Alloc) (inp : Input) (E : List String) :
    (∀ x ∈ (locale_setup a inp E).environment,
      x ∈ E ∨ ∃ i v, resolve a.strdup inp i = some v ∧ x = strjoin (variable_names i) "=" v) ∧
    (∀ x ∈ (locale_setup a inp E).environment, env_name x = "LC_ALL".data → x ∈ E) ∧
    (∀ (n : Nat) (x : String), E[n]? = some x → env_name x = "LC_ALL".data →
      (locale_setup a inp E).environment[n]? = some x) := by
  have hmem : ∀ x ∈ (locale_setup a inp E).environment,
      x ∈ E ∨ ∃ i v, resolve a.strdup inp i = some v ∧ x = strjoin (variable_names i) "=" v := by
    intro x hx
    unfold locale_setup at hx
    rcases apply_variables_environment a (resolve a.strdup inp) E with h | h
    · rw [h] at hx; exact Or.inl hx
    · rw [h] at hx
      rcases mem_strv_env_merge _ E x hx with h2 | h2
      · exact Or.inl h2
      · obtain ⟨i, _, v, hv, rfl⟩ := (mem_additions _ _ _).mp h2
        exact Or.inr ⟨i, v, hv, rfl⟩
  refine ⟨hmem, ?_, ?_⟩
  · intro x hx hn
    rcases hmem x hx with h | ⟨i, v, _, rfl⟩
    · exact h
    · rw [env_name_strjoin] at hn
      exact absurd hn (variable_names_ne_lc_all i)
  · intro n x hx hn
    unfold locale_setup
    rcases apply_variables_environment a (resolve a.strdup inp) E with h | h
    · rw [h]; exact hx
    · rw [h]
      obtain ⟨pre, post, hsplit, hlen, _⟩ := getElem?_split E n x hx
      obtain ⟨pre2, y, post2, h1, h2, _, h4, _⟩ :=
        strv_env_merge_at (additions (resolve a.strdup inp) variable_indices) pre x post
      have hlen2 : pre2.length = n := by
        have := congrArg List.length h2
        simp only [List.length_map] at this
        rw [this, hlen]
      have hy : y = x := by
        apply h4
        intro b hb
        obtain ⟨i, _, v, _, rfl⟩ := (mem_additions _ _ _).mp hb
        rw [env_name_strjoin, hn]
        exact variable_names_ne_lc_all i
      rw [hsplit, h1, ← hlen2, hy]
      exact getElem?_middle pre2 x post2

/-- C19, at a concrete input: the entry `LC_ALL=C` stays at position 1 while
`LANG` is set from the kernel command line. -/
theorem C19_only_recognized_names_witness :
    (locale_setup Alloc.ok boot_wins_input ["PATH=/bin", "LC_ALL=C"]).environment[1]? =
      some "LC_ALL=C" :=
  (C19_only_recognized_names Alloc.ok boot_wins_input ["PATH=/bin", "LC_ALL=C"]).2.2
    1 "LC_ALL=C" rfl (by decide)

/-! ## C20: when the primary configuration source is consulted -/

/-- C20: the value of `r` tested at line 105 is `≤ 0`, so that
`/etc/locale.conf` is read, exactly when the boot-parameter read was skipped
because of a container or returned a value `≤ 0` (count 0, or an error). When
that read matched at least one key (outside a container, positive count) the
set after steps 1-2 is the boot-parameter set alone; when it was skipped, or it
returned `≤ 0` having stored no value, the set after steps 1-2 is the primary
configuration set alone. -/
theorem C20_primary_consulted (inp : Input) :
    ((read_proc_cmdline inp).1 ≤ 0 ↔
      (0 < inp.detect_container ∨ inp.proc_cmdline.ret ≤ 0)) ∧
    (read_etc_locale_conf inp (read_proc_cmdline inp) =
      if (read_proc_cmdline inp).1 ≤ 0 then
        parse_env_file inp.etc_locale_conf (read_proc_cmdline inp).2
      else read_proc_cmdline inp) ∧
    (inp.detect_container ≤ 0 → 0 < inp.proc_cmdline.ret →
      steps12 inp = inp.proc_cmdline.values) ∧
    (0 < inp.detect_container → steps12 inp = inp.etc_locale_conf.values) ∧
    (inp.proc_cmdline.ret ≤ 0 → (∀ i, inp.proc_cmdline.values i = none) →
      steps12 inp = inp.etc_locale_conf.values) := by
  refine ⟨?_, rfl, ?_, ?_, ?_⟩
  · unfold read_proc_cmdline
    by_cases hc : inp.detect_container ≤ 0
    · simp only [hc, if_true, parse_env_file]
      constructor
      · exact fun h => Or.inr h
      · rintro (h | h)
        · exact absurd hc (not_le.mpr h)
        · exact h
    · simp only [hc, if_false, le_refl, true_iff]
      exact Or.inl (not_le.mp hc)
  · intro hc hr
    funext i
    exact steps12_of_matched inp hc hr i
  · intro hc
    funext i
    exact steps12_of_container inp hc i
  · intro hr hv
    funext i
    exact steps12_of_unmatched inp hr i (hv i)

/-- C20, at concrete inputs: with `locale.LANG=C` on the kernel command line
the primary configuration file's `LC_TIME` is not taken; with a command line
that matches no key it is. -/
theorem C20_primary_consulted_witness :
    steps12 fallback_input = fallback_input.proc_cmdline.values ∧
    steps12 fallback_unmatched_input = fallback_unmatched_input.etc_locale_conf.values :=
  ⟨(C20_primary_consulted fallback_input).2.2.1 (by decide) (by decide),
    (C20_primary_consulted fallback_unmatched_input).2.2.2.2 (by decide) (fun _ => rfl)⟩

end LocaleSetup
